import Mathlib

/-!
The torgo `view` tool: rendering and traversal engine

A shallow embedding of `src/view/view.go` and theorems about it.

Conventions of the embedding.

* The package-level variables `mode`, `recursive` and the fifteen colour
  variables are collected in `Globals` and passed explicitly.
* The variable `out` is the output sink.  Every call `out(a, b, ...)` is
  recorded as one `Event.out [a, b, ...]`; the text that reaches the sink is
  obtained with `text`, which formats every call the way `fmt.Fprint` does.
  What `text/tabwriter` does with that text afterwards lies outside the file.
* A run is a value of `Run α`: the events produced so far together with the
  result, `none` when the run stopped with a run-time panic (index out of
  range, method call on a nil interface, length overflow in
  `strings.Repeat`).
* Entering `show_file`, `show_dir`, `error_file_or_dir` or a renderer is
  recorded as a ghost event `Event.call`; ghost events produce no text.
* Collaborators from other packages (`humanize.IBytes`, the default formatting
  of `CreationDate`, `filepath.Join`, `torrent.LoadFromFile`, `os.Stat` and the
  file tree seen by `filepath.Walk`) are fields of `Env`.
* Machine integers are `Int`/`Nat` with explicit wrapping (`wrap64`, `uint64`).
-/

namespace Torgo

/-! ## Data model -/

/-- The type `view_mode` with its three constants. -/
inductive view_mode where
  | view_basic
  | view_short
  | view_long
  deriving DecidableEq, Repr

/-- The fifteen colour variables. -/
structure Colors where
  color_red : String
  color_red_bold : String
  color_green : String
  color_green_bold : String
  color_yellow : String
  color_yellow_bold : String
  color_blue : String
  color_blue_bold : String
  color_magenta : String
  color_magenta_bold : String
  color_cyan : String
  color_cyan_bold : String
  color_white : String
  color_white_bold : String
  color_none : String
  deriving DecidableEq, Repr

/-- Initial values of the colour variables. -/
def default_colors : Colors where
  color_red := "\x1b[0;31m"
  color_red_bold := "\x1b[1;31m"
  color_green := "\x1b[0;32m"
  color_green_bold := "\x1b[1;32m"
  color_yellow := "\x1b[0;33m"
  color_yellow_bold := "\x1b[1;33m"
  color_blue := "\x1b[0;34m"
  color_blue_bold := "\x1b[1;34m"
  color_magenta := "\x1b[0;35m"
  color_magenta_bold := "\x1b[1;35m"
  color_cyan := "\x1b[0;36m"
  color_cyan_bold := "\x1b[1;36m"
  color_white := "\x1b[0;37m"
  color_white_bold := "\x1b[1;37m"
  color_none := "\x1b[0m"

/-- The function `clear_colors`: every colour variable is assigned `""`. -/
def clear_colors (_ : Colors) : Colors where
  color_red := ""
  color_red_bold := ""
  color_green := ""
  color_green_bold := ""
  color_yellow := ""
  color_yellow_bold := ""
  color_blue := ""
  color_blue_bold := ""
  color_magenta := ""
  color_magenta_bold := ""
  color_cyan := ""
  color_cyan_bold := ""
  color_white := ""
  color_white_bold := ""
  color_none := ""

/-- The fifteen colour variables as a list, in declaration order. -/
def Colors.all (c : Colors) : List String :=
  [c.color_red, c.color_red_bold, c.color_green, c.color_green_bold,
   c.color_yellow, c.color_yellow_bold, c.color_blue, c.color_blue_bold,
   c.color_magenta, c.color_magenta_bold, c.color_cyan, c.color_cyan_bold,
   c.color_white, c.color_white_bold, c.color_none]

/-- The package-level variables `mode`, `recursive` and the colours. -/
structure Globals where
  mode : view_mode
  recursive : Bool
  colors : Colors
  deriving DecidableEq, Repr

/-- One entry of `MetaInfo.Files` (`torrent.FileInfo`): `Length` is an `int64`. -/
structure FileInfo where
  Length : Int
  Path : List String
  deriving DecidableEq, Repr

/-- The fields of `torrent.MetaInfo` that the tool reads. -/
structure MetaInfo where
  Name : String
  Files : List FileInfo
  AnnounceList : List (List String)
  CreationDate : Int
  Comment : String
  CreatedBy : String
  Encoding : String
  WebSeedURLs : List String
  deriving DecidableEq, Repr

/-! ## The output sink and runs -/

/-- An operand of `out(...)`, by dynamic type: a string, an `int`, the
creation date, or an `error` (given by its message). -/
inductive Arg where
  | str (s : String)
  | int (n : Int)
  | time (t : Int)
  | err (msg : String)
  deriving DecidableEq, Repr

/-- The functions whose invocation is recorded. -/
inductive Fn where
  | error_file_or_dir
  | show_short
  | show_basic
  | show_long
  | show_file
  | show_dir
  deriving DecidableEq, Repr

/-- An observable step: one call of `out`, or (ghost) entering a function
with the given name argument. -/
inductive Event where
  | out (args : List Arg)
  | call (fn : Fn) (name : String)
  deriving DecidableEq, Repr

/-- A run: the events produced, and the result (`none` after a panic). -/
structure Run (α : Type) where
  events : List Event
  val : Option α

namespace Run

/-- A run that produces nothing and returns `a`. -/
def ret {α : Type} (a : α) : Run α := ⟨[], some a⟩

/-- Sequencing: the second part runs only when the first did not panic. -/
def andThen {α β : Type} (x : Run α) (f : α → Run β) : Run β :=
  match x.val with
  | none => ⟨x.events, none⟩
  | some a => ⟨x.events ++ (f a).events, (f a).val⟩

/-- A run-time panic. -/
def fault {α : Type} : Run α := ⟨[], none⟩

end Run

instance : Monad Run where
  pure := Run.ret
  bind := Run.andThen

/-- The names with which `fn` was entered, in order. -/
def calls (fn : Fn) (es : List Event) : List String :=
  es.filterMap fun e =>
    match e with
    | .call g name => if g = fn then some name else none
    | .out _ => none

/-- The operand lists of the calls of `out`, in order. -/
def outs (es : List Event) : List (List Arg) :=
  es.filterMap fun e =>
    match e with
    | .out args => some args
    | .call _ _ => none

/-- One call `out(args...)`. -/
def out (args : List Arg) : Run Unit := ⟨[.out args], some ()⟩

/-- Ghost step: function `fn` entered with name argument `name`. -/
def enter (fn : Fn) (name : String) : Run Unit := ⟨[.call fn name], some ()⟩

/-- The indexing `xs[i]`, which panics when `i` is out of range. -/
def index {α : Type} (xs : List α) (i : Nat) : Run α :=
  match xs[i]? with
  | some x => pure x
  | none => Run.fault

/-! ## Collaborators from other packages -/

/-- The value `filepath.SkipDir`, or any other error. -/
inductive GoError where
  | SkipDir
  | other (msg : String)
  deriving DecidableEq, Repr

mutual
/-- What `filepath.Walk` finds at a path: a regular file, a directory with its
entries, a directory whose listing fails, or a path whose `Lstat` fails. -/
inductive Node where
  | file : Node
  | dir (entries : Entries) : Node
  | unreadable (err : String) : Node
  | bad (err : String) : Node
/-- The entries of a directory, in the order `Walk` visits them. -/
inductive Entries where
  | nil : Entries
  | cons (name : String) (node : Node) (rest : Entries) : Entries
end

/-- The functions of other packages the tool calls. -/
structure Env where
  /-- The function `humanize.IBytes`, on a `uint64`. -/
  IBytes : Nat → String
  /-- The default formatting of a `CreationDate` by `fmt.Fprint`. -/
  timeString : Int → String
  /-- The function `filepath.Join`. -/
  Join : List String → String
  /-- The function `torrent.LoadFromFile`: the metadata or the error message. -/
  LoadFromFile : String → Except String MetaInfo
  /-- The function `os.Stat`: whether the path is a directory, or the error message. -/
  Stat : String → Except String Bool
  /-- The file tree `filepath.Walk` finds at a root path. -/
  Tree : String → Node

/-! ## Formatting of one `out` call (`fmt.Fprint`) -/

/-- Whether the operand is a string. -/
def Arg.isString : Arg → Bool
  | .str _ => true
  | _ => false

/-- Default formatting of one operand. -/
def Arg.format (env : Env) : Arg → String
  | .str s => s
  | .int n => toString n
  | .time t => env.timeString t
  | .err msg => msg

/-- The loop of `fmt.Fprint`: a space is added between two operands when
neither is a string.  `prev` is `none` for the first operand, else whether the
previous operand was a string. -/
def doPrint (env : Env) : Option Bool → List Arg → String
  | _, [] => ""
  | prev, a :: rest =>
    (if prev = some false && !a.isString then " " else "")
      ++ a.format env ++ doPrint env (some a.isString) rest

/-- The text written by `fmt.Fprint(w, args...)`. -/
def Fprint (env : Env) (args : List Arg) : String := doPrint env none args

/-- The text written to the sink by a sequence of events. -/
def text (env : Env) : List Event → String
  | [] => ""
  | .out args :: es => Fprint env args ++ text env es
  | .call _ _ :: es => text env es

/-! ## Machine integers -/

/-- Wrap-around of `int64` arithmetic. -/
def wrap64 (x : Int) : Int := (x + 2 ^ 63) % 2 ^ 64 - 2 ^ 63

/-- The conversion `uint64(x)` of an `int64`. -/
def uint64 (x : Int) : Nat := (x % 2 ^ 64).toNat

/-- The loop `for _, f := range files { total_size += f.Length }`. -/
def total_size_loop (acc : Int) : List FileInfo → Int
  | [] => acc
  | f :: fs => total_size_loop (wrap64 (acc + f.Length)) fs

/-! ## `tabs` -/

/-- The table `tabstable`. -/
def tabstable : List String :=
  ["",
   "    ",
   "        ",
   "            ",
   "                ",
   "                    ",
   "                        "]

/-- The library function `strings.Repeat` on an `int` of 64 bits: it panics
(`none`) when `count` is negative or when the length `len(s) * count` of the
result does not fit an `int`; otherwise it returns `count` copies of `s`.
Memory is taken as unbounded. -/
def Repeat (s : String) (count : Int) : Option String :=
  if count < 0 ∨ 2 ^ 63 ≤ (s.utf8ByteSize : Int) * count then none
  else some (String.join (List.replicate count.toNat s))

/-- The function `tabs`, on an `int` of 64 bits (`-2^63 ≤ n < 2^63`); `none`
is the panic of `strings.Repeat`, and the index `tabstable[n]` is in range
whenever it is read. -/
def tabs (n : Int) : Option String :=
  if n < 0 then some ""
  else if n < tabstable.length then tabstable[n.toNat]?
  else Repeat "    " n

/-- A call `tabs(n)` inside a renderer: a panic of `tabs` stops the run. -/
def call_tabs (n : Int) : Run String :=
  match tabs n with
  | some s => pure s
  | none => Run.fault

/-! ## Renderers -/

/-- The function `error_file_or_dir`. -/
def error_file_or_dir (g : Globals) (name : String) (err : String) : Run Unit := do
  enter .error_file_or_dir name
  out [.str g.colors.color_white_bold, .str name, .str g.colors.color_none,
       .str " (error: ", .err err, .str ")\n"]

/-- The function `show_short`. -/
def show_short (g : Globals) (env : Env) (filename : String) (mi : MetaInfo) : Run Unit := do
  enter .show_short filename
  let length ←
    if mi.Files.length = 1 then do
      let f ← index mi.Files 0
      pure (env.IBytes (uint64 f.Length))
    else
      pure (env.IBytes (uint64 (total_size_loop 0 mi.Files)))
  out [.str g.colors.color_white_bold, .str filename, .str g.colors.color_none, .str "\n",
       .str "    ", .str g.colors.color_yellow, .str mi.Name, .str g.colors.color_none,
       .str " (", .str g.colors.color_cyan, .str length, .str g.colors.color_none,
       .str " in ", .int mi.Files.length]
  if mi.Files.length = 1 then
    out [.str " file)\n"]
  else
    out [.str " files)\n"]

/-- A loop `for i, x := range xs { body(i, x) }`, with the index of the
first element given. -/
def forRange {α : Type} (body : Nat → α → Run Unit) : Nat → List α → Run Unit
  | _, [] => pure ()
  | i, x :: xs => do
    body i x
    forRange body (i + 1) xs

/-- The function `show_basic`. -/
def show_basic (g : Globals) (env : Env) (filename : String) (mi : MetaInfo) : Run Unit := do
  enter .show_basic filename
  -- torrent file name
  out [.str g.colors.color_white_bold, .str filename, .str g.colors.color_none, .str "\n"]
  -- torrent name
  out [.str g.colors.color_green_bold, .str "\tname\t", .str g.colors.color_none,
       .str g.colors.color_yellow, .str mi.Name, .str g.colors.color_none, .str "\n"]
  -- tracker url
  let ag ← index mi.AnnounceList 0
  let url ← index ag 0
  out [.str g.colors.color_green_bold, .str "\ttracker url\t", .str g.colors.color_none,
       .str url, .str "\n"]
  -- created by
  out [.str g.colors.color_green_bold, .str "\tcreated by\t", .str g.colors.color_none,
       .str mi.CreatedBy, .str "\n"]
  -- created on
  out [.str g.colors.color_green_bold, .str "\tcreated on\t", .str g.colors.color_none,
       .str g.colors.color_magenta, .time mi.CreationDate, .str g.colors.color_none, .str "\n"]
  if mi.Files.length = 1 then do
    out [.str g.colors.color_green_bold, .str "\tfile name\t", .str g.colors.color_none,
         .str mi.Name, .str "\n"]
    let f ← index mi.Files 0
    out [.str g.colors.color_green_bold, .str "\tfile size\t", .str g.colors.color_none,
         .str g.colors.color_cyan, .str (env.IBytes (uint64 f.Length)),
         .str g.colors.color_none, .str "\n"]
  else do
    out [.str g.colors.color_green_bold, .str "\tnum files\t", .str g.colors.color_none,
         .int mi.Files.length, .str "\n"]
    out [.str g.colors.color_green_bold, .str "\ttotal size\t", .str g.colors.color_none,
         .str g.colors.color_cyan, .str (env.IBytes (uint64 (total_size_loop 0 mi.Files))),
         .str g.colors.color_none, .str "\n"]
  out [.str "\n"]

/-- The function `show_long`. -/
def show_long (g : Globals) (env : Env) (filename : String) (mi : MetaInfo) : Run Unit := do
  enter .show_long filename
  -- torrent file name
  out [.str g.colors.color_white_bold, .str filename, .str g.colors.color_none, .str "\n"]
  -- announce groups
  out [.str g.colors.color_green_bold, .str (← call_tabs 1), .str "announce groups",
       .str g.colors.color_none, .str "\n"]
  forRange (fun i ag => do
      out [.str g.colors.color_yellow_bold, .str (← call_tabs 2), .int i,
           .str g.colors.color_none, .str "\n"]
      forRange (fun _ a => do out [.str (← call_tabs 3), .str a, .str "\n"]) 0 ag)
    0 mi.AnnounceList
  -- created on
  out [.str g.colors.color_green_bold, .str (← call_tabs 1), .str "created on",
       .str g.colors.color_none, .str "\n",
       .str (← call_tabs 2), .time mi.CreationDate, .str "\n"]
  -- comment
  if mi.Comment ≠ "" then
    out [.str g.colors.color_green_bold, .str (← call_tabs 1), .str "comment",
         .str g.colors.color_none, .str "\n",
         .str (← call_tabs 2), .str mi.Comment, .str "\n"]
  -- created by
  if mi.CreatedBy ≠ "" then
    out [.str g.colors.color_green_bold, .str (← call_tabs 1), .str "created by",
         .str g.colors.color_none, .str "\n",
         .str (← call_tabs 2), .str mi.CreatedBy, .str "\n"]
  -- encoding
  if mi.Encoding ≠ "" then
    out [.str g.colors.color_green_bold, .str (← call_tabs 1), .str "encoding",
         .str g.colors.color_none, .str "\n",
         .str (← call_tabs 2), .str mi.Encoding, .str "\n"]
  -- url list
  if mi.WebSeedURLs.length > 0 then do
    out [.str g.colors.color_green_bold, .str (← call_tabs 1), .str "webseed urls",
         .str g.colors.color_none, .str "\n"]
    forRange (fun _ url => do out [.str (← call_tabs 2), .str url, .str "\n"]) 0 mi.WebSeedURLs
  if mi.Files.length = 1 then do
    out [.str g.colors.color_green_bold, .str (← call_tabs 1), .str "name",
         .str g.colors.color_none, .str " (single file)\n",
         .str (← call_tabs 2), .str g.colors.color_yellow, .str mi.Name,
         .str g.colors.color_none, .str "\n"]
    let f ← index mi.Files 0
    out [.str g.colors.color_green_bold, .str (← call_tabs 1), .str "length",
         .str g.colors.color_none, .str "\n",
         .str (← call_tabs 2), .str g.colors.color_cyan, .str (env.IBytes (uint64 f.Length)),
         .str g.colors.color_none, .str "\n"]
  else do
    out [.str g.colors.color_green_bold, .str (← call_tabs 1), .str "name",
         .str g.colors.color_none, .str " (multiple files)\n",
         .str (← call_tabs 2), .str g.colors.color_yellow, .str mi.Name,
         .str g.colors.color_none, .str "\n"]
    out [.str g.colors.color_green_bold, .str (← call_tabs 1), .str "files",
         .str g.colors.color_none, .str " (", .int mi.Files.length, .str ")\n"]
    forRange (fun _ f => do
        out [.str (← call_tabs 2), .str (env.Join f.Path),
             .str " (", .str g.colors.color_cyan, .str (env.IBytes (uint64 f.Length)),
             .str g.colors.color_none, .str ")\n"])
      0 mi.Files
  out [.str "\n"]

/-! ## Paths (`path/filepath`, with separator `/`) -/

/-- The loop of `filepath.Ext`: `i` counts the characters still to scan,
from the end of the path towards its start. -/
def ExtLoop (p : List Char) : Nat → List Char
  | 0 => []
  | i + 1 =>
    match p[i]? with
    | none => []
    | some c =>
      if c = '/' then []
      else if c = '.' then p.drop i
      else ExtLoop p i

/-- The function `filepath.Ext`. -/
def Ext (path : String) : String := ⟨ExtLoop path.data path.data.length⟩

/-- The loop of `filepath.Split`: the position where the final element starts. -/
def SplitLoop (p : List Char) : Nat → Nat
  | 0 => 0
  | i + 1 =>
    match p[i]? with
    | none => i + 1
    | some c => if c = '/' then i + 1 else SplitLoop p i

/-- The function `filepath.Split`. -/
def Split (path : String) : String × String :=
  (⟨path.data.take (SplitLoop path.data path.data.length)⟩,
   ⟨path.data.drop (SplitLoop path.data path.data.length)⟩)

/-! ## Traversal -/

/-- The function `show_file`. -/
def show_file (g : Globals) (env : Env) (filename : String) : Run Unit := do
  enter .show_file filename
  match env.LoadFromFile filename with
  | .error err => error_file_or_dir g filename err
  | .ok mi =>
    let filename := if !g.recursive then (Split filename).2 else filename
    match g.mode with
    | .view_short => show_short g env filename mi
    | .view_long => show_long g env filename mi
    | .view_basic => show_basic g env filename mi

/-- The closure `walker` of `show_dir`.  `info` is `none` for a nil
`os.FileInfo`, else `some (info.IsDir())`; `err` is `none` for a nil error. -/
def walker (g : Globals) (env : Env) (dirname : String)
    (path : String) (info : Option Bool) (err : Option String) : Run (Option GoError) := do
  let isDir ← (match info with
    | some d => pure d
    | none => Run.fault)
  -- skip directories in a non-recursive mode
  if isDir && !g.recursive && path ≠ dirname then
    pure (some .SkipDir)
  -- skip bad files
  else if err ≠ none then
    pure none
  else do
    if Ext path = ".torrent" then
      show_file g env path
    pure none

/-- Whether `Lstat` reports a directory. -/
def Node.isDir : Node → Bool
  | .dir _ => true
  | .unreadable _ => true
  | _ => false

mutual
/-- The function `walk` of `path/filepath`, on the node found at `path`. -/
def walk (env : Env) (fn : String → Option Bool → Option String → Run (Option GoError))
    (path : String) : Node → Run (Option GoError)
  | .file => fn path (some false) none
  | .bad err => fn path none (some err)
  | .unreadable err => fn path (some true) (some err)
  | .dir entries => do
    let err1 ← fn path (some true) none
    if err1 ≠ none then
      pure err1
    else
      walkEntries env fn path entries
/-- The loop of `walk` over the names of a directory. -/
def walkEntries (env : Env) (fn : String → Option Bool → Option String → Run (Option GoError))
    (path : String) : Entries → Run (Option GoError)
  | .nil => pure none
  | .cons name node rest => do
    let filename := env.Join [path, name]
    let err ← walk env fn filename node
    match node with
    | .bad _ =>
      if err ≠ none ∧ err ≠ some .SkipDir then pure err
      else walkEntries env fn path rest
    | _ =>
      if err ≠ none ∧ (!node.isDir ∨ err ≠ some .SkipDir) then pure err
      else walkEntries env fn path rest
end

/-- The function `filepath.Walk`. -/
def Walk (env : Env) (root : String)
    (fn : String → Option Bool → Option String → Run (Option GoError)) :
    Run (Option GoError) := do
  let err ← walk env fn root (env.Tree root)
  if err = some .SkipDir then pure none else pure err

/-- The function `show_dir`. -/
def show_dir (g : Globals) (env : Env) (dirname : String) : Run Unit := do
  enter .show_dir dirname
  let _ ← Walk env dirname (walker g env dirname)
  pure ()

/-- The flags of the `view` tool after `fs.Parse`. -/
structure Flags where
  recursive : Bool
  no_colors : Bool
  short : Bool
  basic : Bool
  long : Bool
  deriving DecidableEq, Repr

/-- The values of the package variables once `Tool` has set the output mode. -/
def Tool_globals (fl : Flags) : Globals where
  recursive := fl.recursive
  colors := if fl.no_colors then clear_colors default_colors else default_colors
  mode := if fl.short then .view_short else if fl.long then .view_long else .view_basic

/-- The loop of `Tool` over the arguments. -/
def Tool_args (g : Globals) (env : Env) : List String → Run Unit
  | [] => pure ()
  | arg :: rest => do
    match env.Stat arg with
    | .error err => error_file_or_dir g arg err
    | .ok isDir =>
      if isDir then show_dir g env arg
      else show_file g env arg
    Tool_args g env rest

/-- The function `Tool`, from the parsed flags and the remaining arguments. -/
def Tool (fl : Flags) (args : List String) (env : Env) : Run Unit := do
  let g := Tool_globals fl
  -- if no arguments were given, show the current directory
  if args.length = 0 then
    show_dir g env "."
  Tool_args g env args

/-! ## Reference models of the collaborators

Used to instantiate `Env` in concrete scenarios.  They follow the documented
behaviour of the libraries in exact arithmetic, for paths with separator `/`. -/

/-- The unit suffixes of `humanize.IBytes`. -/
def IBytes_sizes : List String := ["B", "KiB", "MiB", "GiB", "TiB", "PiB", "EiB"]

/-- The exponent `floor (log_1024 s)`, at most 6. -/
def IBytes_exp (s : Nat) : Nat :=
  ((List.range 7).filter fun i => 0 < i ∧ 1024 ^ i ≤ s).length

/-- Rounding of `t / 10` to an integer, ties to even. -/
def round_tenths (t : Nat) : Nat :=
  if t % 10 < 5 then t / 10
  else if 5 < t % 10 then t / 10 + 1
  else if (t / 10) % 2 = 0 then t / 10
  else t / 10 + 1

/-- A model of `humanize.IBytes`: below 10 the number and `B`; otherwise the
value in the largest unit not above it, rounded to tenths, printed with one
decimal below 10 and with none from 10 on. -/
def IBytes_model (s : Nat) : String :=
  if s < 10 then toString s ++ " B"
  else
    let e := IBytes_exp s
    let t := (20 * s + 1024 ^ e) / (2 * 1024 ^ e)
    let suffix := IBytes_sizes.getD e ""
    if t < 100 then toString (t / 10) ++ "." ++ toString (t % 10) ++ " " ++ suffix
    else toString (round_tenths t) ++ " " ++ suffix

/-- The elements of a path between separators. -/
def splitSlash : List Char → List (List Char)
  | [] => [[]]
  | c :: cs =>
    if c = '/' then [] :: splitSlash cs
    else
      match splitSlash cs with
      | [] => [[c]]
      | e :: es => (c :: e) :: es

/-- One step of `filepath.Clean` on the stack of kept elements (last first). -/
def cleanStep (rooted : Bool) (stack : List (List Char)) (e : List Char) : List (List Char) :=
  if e = [] ∨ e = ['.'] then stack
  else if e = ['.', '.'] then
    match stack with
    | [] => if rooted then [] else [e]
    | top :: below => if top = ['.', '.'] then e :: stack else below
  else e :: stack

/-- A model of `filepath.Clean`. -/
def Clean_model (p : List Char) : List Char :=
  let rooted := p.head? = some '/'
  let kept := ((splitSlash p).foldl (cleanStep rooted) []).reverse
  let body := List.intercalate ['/'] kept
  if rooted then '/' :: body
  else if body = [] then ['.']
  else body

/-- A model of `filepath.Join`: the non-empty elements joined with `/`, cleaned. -/
def Join_model (elem : List String) : String :=
  match (elem.filter fun e => e ≠ "").map String.data with
  | [] => ""
  | es => ⟨Clean_model (List.intercalate ['/'] es)⟩

/-- An environment with the reference models, for given files and trees. -/
def modelEnv (load : String → Except String MetaInfo) (stat : String → Except String Bool)
    (tree : String → Node) : Env where
  IBytes := IBytes_model
  timeString := fun t => toString t
  Join := Join_model
  LoadFromFile := load
  Stat := stat
  Tree := tree

/-! ## Observations on runs

Notions the statements below use to read a run. -/

/-- The size the renderers humanize for a whole torrent: the sum of the
lengths of all file entries, as a `uint64`. -/
def shown_total (mi : MetaInfo) : Nat := uint64 (mi.Files.map FileInfo.Length).sum

/-- The value of `AnnounceList[0][0]`, when both indexings are in range. -/
def first_tracker (mi : MetaInfo) : Option String :=
  (mi.AnnounceList[0]?).bind fun ag => ag[0]?

/-- Operand number `k` (from 0) of every call of `out` that has at least `n`
operands, in order. -/
def column (k n : Nat) (es : List Event) : List Arg :=
  (outs es).filterMap fun args => if n ≤ args.length then args[k]? else none

/-- The operands of the calls of `out` that have exactly one operand. -/
def lone_operands (es : List Event) : List Arg :=
  ((outs es).filter fun args => args.length = 1).flatten

/-- The section labels of `show_long`. -/
def long_labels : List String :=
  ["announce groups", "created on", "comment", "created by", "encoding",
   "webseed urls", "name", "length", "files"]

/-- The labels of the section heads among the events of `show_long`: a section
head is a call of `out` with at least five operands whose third operand is a
label. -/
def sections (es : List Event) : List String :=
  (column 2 5 es).filterMap fun a =>
    match a with
    | .str s => if s ∈ long_labels then some s else none
    | _ => none

/-- One field row of `show_basic` as text. -/
def basic_row (c : Colors) (label value : String) : String :=
  c.color_green_bold ++ "\t" ++ label ++ "\t" ++ c.color_none ++ value ++ "\n"

/-- The escape character that starts every ANSI escape sequence. -/
def ESC : Char := '\x1b'

/-- The strings of a metadata that the renderers write as they are. -/
def MetaInfo.strings (mi : MetaInfo) : List String :=
  [mi.Name, mi.Comment, mi.CreatedBy, mi.Encoding] ++ mi.AnnounceList.flatten ++ mi.WebSeedURLs

/-- The strings the collaborators produce for a metadata: the formatted
creation date, the humanized sizes and the joined paths. -/
def formatted (env : Env) (mi : MetaInfo) : List String :=
  [env.timeString mi.CreationDate, env.IBytes (shown_total mi)]
    ++ mi.Files.map (fun f => env.IBytes (uint64 f.Length))
    ++ mi.Files.map (fun f => env.Join f.Path)

/-- The text contains an ESC character: it starts with the ANSI escape
sequence of `color_white_bold`. -/
def coloured_start (s : String) : Prop :=
  ESC ∈ s.data ∧ ∃ tail, s = "\x1b[1;37m" ++ tail

/-- The tag of the renderer `show_file` selects in a mode. -/
def view_mode.fn : view_mode → Fn
  | .view_short => .show_short
  | .view_long => .show_long
  | .view_basic => .show_basic

/-- Exactly one of two groups of fields is shown, chosen by the number `n` of
file entries: `n = 1` and the run shows the fields `single` and none of
`multi`, or `n > 1` and it shows the fields `multi` and none of `single`. -/
def BranchBy (shown single multi : List Arg) (n : Nat) : Prop :=
  (n = 1 ∧ (∀ a ∈ single, a ∈ shown) ∧ (∀ a ∈ multi, a ∉ shown)) ∨
  (1 < n ∧ (∀ a ∈ multi, a ∈ shown) ∧ (∀ a ∈ single, a ∉ shown))

/-- The entries of a directory as a list of names and nodes. -/
def Entries.toList : Entries → List (String × Node)
  | .nil => []
  | .cons name node rest => (name, node) :: rest.toList

/-- The direct entries of a node (none unless it is a readable directory). -/
def Node.children : Node → List (String × Node)
  | .dir entries => entries.toList
  | _ => []

mutual
/-- The paths of all entries of the tree found at `path`, the root first,
each directory before its entries, built the way `walk` builds them. -/
def Node.paths (env : Env) (path : String) : Node → List String
  | .file => [path]
  | .bad _ => [path]
  | .unreadable _ => [path]
  | .dir entries => path :: entries.paths env path
/-- The paths of all entries below the directory `path`. -/
def Entries.paths (env : Env) (path : String) : Entries → List String
  | .nil => []
  | .cons name node rest => node.paths env (env.Join [path, name]) ++ rest.paths env path
end

mutual
/-- No entry of the tree fails `Lstat` and no directory fails to be listed. -/
def Node.clean : Node → Bool
  | .file => true
  | .bad _ => false
  | .unreadable _ => false
  | .dir entries => entries.clean
/-- No entry below fails `Lstat` and no directory fails to be listed. -/
def Entries.clean : Entries → Bool
  | .nil => true
  | .cons _ node rest => node.clean && rest.clean
end

/-! ## Scenario data -/

/-- The single-file torrent of the `ubuntu.iso` scenario. -/
def ubuntu : MetaInfo where
  Name := "ubuntu.iso"
  Files := [⟨1610612736, ["ubuntu.iso"]⟩]
  AnnounceList := [["http://tracker.example/announce"]]
  CreationDate := 1356998400
  Comment := ""
  CreatedBy := "mktorrent"
  Encoding := ""
  WebSeedURLs := []

/-- A two-file torrent. -/
def album : MetaInfo where
  Name := "album"
  Files := [⟨3000, ["cd1", "a.flac"]⟩, ⟨5000, ["cd1", "b.flac"]⟩]
  AnnounceList := [["http://tracker.example/announce", "http://b.example/a"], []]
  CreationDate := 1356998400
  Comment := "rip"
  CreatedBy := ""
  Encoding := "UTF-8"
  WebSeedURLs := ["http://seed.example/album"]

/-- The `ubuntu.iso` torrent with no announce groups. -/
def ubuntu_no_tracker : MetaInfo := { ubuntu with AnnounceList := [] }

/-- An environment in which every file decodes to `ubuntu`. -/
def ubuntuEnv : Env :=
  modelEnv (fun _ => .ok ubuntu) (fun _ => .ok false) (fun _ => .file)

/-- A directory with `a.torrent` and, two levels down, `sub1/sub2/x.torrent`. -/
def nested_tree : Node :=
  .dir (.cons "a.torrent" .file
    (.cons "sub1" (.dir (.cons "sub2" (.dir (.cons "x.torrent" .file .nil)) .nil)) .nil))

/-- An environment whose walks find `nested_tree`, every file decoding to `ubuntu`. -/
def nestedEnv : Env :=
  modelEnv (fun _ => .ok ubuntu) (fun _ => .ok true) (fun _ => nested_tree)

/-- A directory whose only entry is a directory named `x.torrent` holding `y.txt`. -/
def torrent_dir_tree : Node :=
  .dir (.cons "x.torrent" (.dir (.cons "y.txt" .file .nil)) .nil)

/-- An environment whose walks find `torrent_dir_tree`; reading a directory
as a torrent fails. -/
def torrentDirEnv : Env :=
  modelEnv (fun p => .error ("read " ++ p ++ ": is a directory")) (fun _ => .ok true)
    (fun _ => torrent_dir_tree)

/-- Globals after `Tool` ran with `-n`, in the given mode. -/
def plain (m : view_mode) (r : Bool) : Globals := ⟨m, r, clear_colors default_colors⟩

/-- Globals with the initial colours, in the given mode. -/
def coloured (m : view_mode) (r : Bool) : Globals := ⟨m, r, default_colors⟩

/-- The four-space string repeated `n` times. -/
def four_spaces (n : Nat) : String := String.join (List.replicate n "    ")

/-- The function `show_short` with the size always computed by the summing
loop: the 64-bit sum of the `Length` of all entries, converted to `uint64`
and humanized. -/
def show_short_summing (g : Globals) (env : Env) (filename : String) (mi : MetaInfo) :
    Run Unit := do
  enter .show_short filename
  let length := env.IBytes (uint64 (total_size_loop 0 mi.Files))
  out [.str g.colors.color_white_bold, .str filename, .str g.colors.color_none, .str "\n",
       .str "    ", .str g.colors.color_yellow, .str mi.Name, .str g.colors.color_none,
       .str " (", .str g.colors.color_cyan, .str length, .str g.colors.color_none,
       .str " in ", .int mi.Files.length]
  if mi.Files.length = 1 then
    out [.str " file)\n"]
  else
    out [.str " files)\n"]

/-- A metadata with no announce group, no file entry and empty strings. -/
def empty_metainfo : MetaInfo where
  Name := ""
  Files := []
  AnnounceList := []
  CreationDate := 0
  Comment := ""
  CreatedBy := ""
  Encoding := ""
  WebSeedURLs := []

/-- The paths one argument of `Tool` can bring to `show_file`: nothing when
`os.Stat` fails, the entries with extension `.torrent` of the tree below a
directory, the argument itself otherwise. -/
def arg_paths (env : Env) (arg : String) : List String :=
  match env.Stat arg with
  | .error _ => []
  | .ok true => ((env.Tree arg).paths env arg).filter (fun p => Ext p = ".torrent")
  | .ok false => [arg]

/-- The paths an invocation of `Tool` can bring to `show_file`, in order: those
of the current directory when there is no argument, else those of each
argument. -/
def Tool_paths (env : Env) (args : List String) : List String :=
  (if args.length = 0 then
      ((env.Tree ".").paths env ".").filter (fun p => Ext p = ".torrent")
    else [])
  ++ args.flatMap (arg_paths env)

/-- Flags `-n -s`: short mode without colours. -/
def flags_short : Flags := ⟨false, true, true, true, false⟩

/-- Flags `-n -s -l`: both verbosity flags set. -/
def flags_short_long : Flags := ⟨false, true, true, true, true⟩

/-- A directory holding `locked`, whose `Lstat` fails, and then `b.torrent`. -/
def locked_tree : Node :=
  .dir (.cons "locked" (.bad "permission denied") (.cons "b.torrent" .file .nil))

/-- An environment whose walks find `locked_tree`, every file decoding to `ubuntu`. -/
def lockedEnv : Env :=
  modelEnv (fun _ => .ok ubuntu) (fun _ => .ok true) (fun _ => locked_tree)

/-- An environment where `missing` cannot be stat'd, `d` is a directory
holding `a.torrent`, and every other path is a file decoding to `ubuntu`. -/
def mixedEnv : Env :=
  modelEnv (fun _ => .ok ubuntu)
    (fun p => if p = "missing" then .error "stat missing: no such file or directory"
      else if p = "d" then .ok true else .ok false)
    (fun _ => .dir (.cons "a.torrent" .file .nil))

/-- The calls of `out` that list announce groups, the first having index `i`:
for each group one call with the index, then one call per tracker URL. -/
def announce_calls (c : Colors) : Nat → List (List String) → List (List Arg)
  | _, [] => []
  | i, ag :: rest =>
    ([.str c.color_yellow_bold, .str "        ", .int i, .str c.color_none, .str "\n"]
      :: ag.map fun a => [.str "            ", .str a, .str "\n"])
    ++ announce_calls c (i + 1) rest

/-- The calls of `out` that list file entries: one call per entry, with the
joined path and the humanized length. -/
def file_calls (c : Colors) (env : Env) (files : List FileInfo) : List (List Arg) :=
  files.map fun f =>
    [.str "        ", .str (env.Join f.Path),
     .str " (", .str c.color_cyan, .str (env.IBytes (uint64 f.Length)),
     .str c.color_none, .str ")\n"]

mutual
/-- The paths of the entries of the tree found at `path` that are no "bad
files" for the callback of a recursive walk: every entry whose `Lstat`
succeeds, other than a directory that cannot be listed; the root first, each
directory before its entries, built the way `walk` builds them. -/
def Node.good_paths (env : Env) (path : String) : Node → List String
  | .file => [path]
  | .bad _ => []
  | .unreadable _ => []
  | .dir entries => path :: entries.good_paths env path
/-- The paths of the good entries below the directory `path`. -/
def Entries.good_paths (env : Env) (path : String) : Entries → List String
  | .nil => []
  | .cons name node rest =>
    node.good_paths env (env.Join [path, name]) ++ rest.good_paths env path
end

mutual
/-- No entry of the tree fails `Lstat`. -/
def Node.stat_ok : Node → Bool
  | .file => true
  | .bad _ => false
  | .unreadable _ => true
  | .dir entries => entries.stat_ok
/-- No entry below fails `Lstat`. -/
def Entries.stat_ok : Entries → Bool
  | .nil => true
  | .cons _ node rest => node.stat_ok && rest.stat_ok
end

/-- The paths of the list up to and including the first one on which
`show_file` panics (all of them when there is none). -/
def upto_panic (g : Globals) (env : Env) : List String → List String
  | [] => []
  | p :: ps =>
    if (show_file g env p).val = none then [p] else p :: upto_panic g env ps

/-- The run `x` of a walk passes the paths of `L` to `show_file` in turn, and
stops by the panic of `show_file` if there is one, else returns no error. -/
def Tracks (g : Globals) (env : Env) (x : Run (Option GoError)) (L : List String) : Prop :=
  calls .show_file x.events = upto_panic g env L ∧
  ((x.val = some none ∧ ∀ p ∈ L, (show_file g env p).val = some ()) ∨
   (x.val = none ∧ ∃ p ∈ L, (show_file g env p).val = none))

/-- A directory holding a directory `a.torrent` that cannot be listed, and
then the file `b.torrent`. -/
def unlistable_tree : Node :=
  .dir (.cons "a.torrent" (.unreadable "permission denied") (.cons "b.torrent" .file .nil))

/-- An environment whose walks find `unlistable_tree`, every file decoding to
`ubuntu`. -/
def unlistableEnv : Env :=
  modelEnv (fun _ => .ok ubuntu) (fun _ => .ok true) (fun _ => unlistable_tree)

/-- A directory holding `a`, whose `Lstat` fails, and then the file
`b.torrent`. -/
def unstatable_tree : Node :=
  .dir (.cons "a" (.bad "permission denied") (.cons "b.torrent" .file .nil))

/-- An environment whose walks find `unstatable_tree`, every file decoding to
`ubuntu`. -/
def unstatableEnv : Env :=
  modelEnv (fun _ => .ok ubuntu) (fun _ => .ok true) (fun _ => unstatable_tree)

/-- A directory holding the files `a.torrent` and `b.torrent`. -/
def pair_tree : Node :=
  .dir (.cons "a.torrent" .file (.cons "b.torrent" .file .nil))

/-- An environment whose walks find `pair_tree`, every file decoding to
`ubuntu_no_tracker`. -/
def trackerlessEnv : Env :=
  modelEnv (fun _ => .ok ubuntu_no_tracker) (fun _ => .ok true) (fun _ => pair_tree)

/-! ## Lemmas on runs and machine integers -/

@[simp]
theorem Run.events_pure {α : Type} (a : α) : (pure a : Run α).events = [] := rfl

@[simp]
theorem Run.val_pure {α : Type} (a : α) : (pure a : Run α).val = some a := rfl

@[simp]
theorem Run.events_out (args : List Arg) : (out args).events = [.out args] := rfl

@[simp]
theorem Run.val_out (args : List Arg) : (out args).val = some () := rfl

@[simp]
theorem Run.events_enter (fn : Fn) (n : String) :
    (enter fn n).events = [.call fn n] := rfl

@[simp]
theorem Run.val_enter (fn : Fn) (n : String) : (enter fn n).val = some () := rfl

@[simp]
theorem Run.events_fault {α : Type} : (Run.fault : Run α).events = [] := rfl

@[simp]
theorem Run.val_fault {α : Type} : (Run.fault : Run α).val = none := rfl

theorem Run.bind_def {α β : Type} (x : Run α) (f : α → Run β) :
    (x >>= f) = Run.andThen x f := rfl

theorem Run.bind_ok {β : Type} (x : Run Unit) (f : Unit → Run β) (h : x.val = some ()) :
    (x >>= f) = ⟨x.events ++ (f ()).events, (f ()).val⟩ := by
  simp [Run.bind_def, Run.andThen, h]

theorem uint64_wrap64 (x : Int) : uint64 (wrap64 x) = uint64 x := by
  unfold uint64 wrap64
  congr 1
  omega

theorem uint64_add_congr (a b c : Int) (h : uint64 a = uint64 b) :
    uint64 (a + c) = uint64 (b + c) := by
  unfold uint64 at *
  have h1 : a % 2 ^ 64 = b % 2 ^ 64 := by
    have ha : 0 ≤ a % 2 ^ 64 := Int.emod_nonneg _ (by norm_num)
    have hb : 0 ≤ b % 2 ^ 64 := Int.emod_nonneg _ (by norm_num)
    omega
  congr 1
  omega

theorem uint64_total_size_loop (fs : List FileInfo) (acc : Int) :
    uint64 (total_size_loop acc fs) = uint64 (acc + (fs.map FileInfo.Length).sum) := by
  induction fs generalizing acc with
  | nil => simp [total_size_loop]
  | cons f fs ih =>
    simp only [total_size_loop, List.map_cons, List.sum_cons]
    rw [ih, uint64_add_congr _ _ _ (uint64_wrap64 _)]
    congr 1
    ring

theorem toString_natCast (n : Nat) : toString (n : Int) = toString n := rfl

theorem forRange_val {α : Type} (body : Nat → α → Run Unit)
    (hb : ∀ i x, (body i x).val = some ()) (xs : List α) (k : Nat) :
    (forRange body k xs).val = some () := by
  induction xs generalizing k with
  | nil => rfl
  | cons x xs ih =>
    unfold forRange
    rw [Run.bind_ok _ _ (hb k x)]
    exact ih (k + 1)

theorem forRange_out_val {α : Type} (f : Nat → α → List Arg) (xs : List α) (k : Nat) :
    (forRange (fun i x => out (f i x)) k xs).val = some () :=
  forRange_val _ (fun _ _ => rfl) xs k

theorem announce_val (g : Globals) (groups : List (List String)) (k : Nat) :
    (forRange (fun i ag => do
      out [.str g.colors.color_yellow_bold, .str "        ", .int i,
           .str g.colors.color_none, .str "\n"]
      forRange (fun _ a => out [.str "            ", .str a, .str "\n"]) 0 ag) k groups).val
      = some () := by
  apply forRange_val
  intro i ag
  rw [Run.bind_ok _ _ rfl]
  exact forRange_out_val _ _ _

/-! ## The runs of the renderers in closed form -/

theorem show_short_run (g : Globals) (env : Env) (filename : String) (mi : MetaInfo) :
    show_short g env filename mi =
      ⟨[.call .show_short filename,
        .out [.str g.colors.color_white_bold, .str filename, .str g.colors.color_none, .str "\n",
          .str "    ", .str g.colors.color_yellow, .str mi.Name, .str g.colors.color_none,
          .str " (", .str g.colors.color_cyan, .str (env.IBytes (shown_total mi)),
          .str g.colors.color_none, .str " in ", .int mi.Files.length],
        .out [.str (if mi.Files.length = 1 then " file)\n" else " files)\n")]], some ()⟩ := by
  unfold show_short shown_total
  by_cases h : mi.Files.length = 1
  · obtain ⟨f, hf⟩ := List.length_eq_one.mp h
    simp [hf, Run.bind_def, Run.andThen, index, out, enter, pure, Run.ret, uint64]
  · have := uint64_total_size_loop mi.Files 0
    simp [h, Run.bind_def, Run.andThen, out, enter, pure, Run.ret, this]

theorem show_basic_run_fault (g : Globals) (env : Env) (filename : String) (mi : MetaInfo)
    (h : first_tracker mi = none) :
    show_basic g env filename mi =
      ⟨[.call .show_basic filename,
        .out [.str g.colors.color_white_bold, .str filename, .str g.colors.color_none, .str "\n"],
        .out [.str g.colors.color_green_bold, .str "\tname\t", .str g.colors.color_none,
          .str g.colors.color_yellow, .str mi.Name, .str g.colors.color_none, .str "\n"]],
       none⟩ := by
  unfold show_basic
  unfold first_tracker at h
  cases h0 : mi.AnnounceList[0]? with
  | none => simp [Run.bind_def, Run.andThen, index, h0]
  | some ag =>
    have h1 : ag[0]? = none := by simpa [h0] using h
    simp [Run.bind_def, Run.andThen, index, h0, h1]

theorem show_basic_run_ok (g : Globals) (env : Env) (filename : String) (mi : MetaInfo)
    (url : String) (h : first_tracker mi = some url) :
    show_basic g env filename mi =
      ⟨[.call .show_basic filename,
        .out [.str g.colors.color_white_bold, .str filename, .str g.colors.color_none, .str "\n"],
        .out [.str g.colors.color_green_bold, .str "\tname\t", .str g.colors.color_none,
          .str g.colors.color_yellow, .str mi.Name, .str g.colors.color_none, .str "\n"],
        .out [.str g.colors.color_green_bold, .str "\ttracker url\t", .str g.colors.color_none,
          .str url, .str "\n"],
        .out [.str g.colors.color_green_bold, .str "\tcreated by\t", .str g.colors.color_none,
          .str mi.CreatedBy, .str "\n"],
        .out [.str g.colors.color_green_bold, .str "\tcreated on\t", .str g.colors.color_none,
          .str g.colors.color_magenta, .time mi.CreationDate, .str g.colors.color_none,
          .str "\n"]]
        ++ (if mi.Files.length = 1 then
              [.out [.str g.colors.color_green_bold, .str "\tfile name\t",
                .str g.colors.color_none, .str mi.Name, .str "\n"],
               .out [.str g.colors.color_green_bold, .str "\tfile size\t",
                .str g.colors.color_none, .str g.colors.color_cyan,
                .str (env.IBytes (shown_total mi)), .str g.colors.color_none, .str "\n"]]
            else
              [.out [.str g.colors.color_green_bold, .str "\tnum files\t",
                .str g.colors.color_none, .int mi.Files.length, .str "\n"],
               .out [.str g.colors.color_green_bold, .str "\ttotal size\t",
                .str g.colors.color_none, .str g.colors.color_cyan,
                .str (env.IBytes (shown_total mi)), .str g.colors.color_none, .str "\n"]])
        ++ [.out [.str "\n"]],
       some ()⟩ := by
  unfold show_basic
  unfold first_tracker at h
  cases h0 : mi.AnnounceList[0]? with
  | none => simp [h0] at h
  | some ag =>
    have h1 : ag[0]? = some url := by simpa [h0] using h
    by_cases h5 : mi.Files.length = 1
    · obtain ⟨f, hf⟩ := List.length_eq_one.mp h5
      have hs : shown_total mi = uint64 f.Length := by simp [shown_total, hf]
      simp [Run.bind_def, Run.andThen, index, h0, h1, hf, hs]
    · have hs := uint64_total_size_loop mi.Files 0
      simp [Run.bind_def, Run.andThen, index, h0, h1, h5, hs, shown_total]

/-- The calls `tabs(1)`, `tabs(2)` and `tabs(3)` of `show_long` return the
entries 1, 2 and 3 of `tabstable`: the renderer with these values in place. -/
theorem show_long_eq (g : Globals) (env : Env) (filename : String) (mi : MetaInfo) :
    show_long g env filename mi = ((do
      enter .show_long filename
      -- torrent file name
      out [.str g.colors.color_white_bold, .str filename, .str g.colors.color_none, .str "\n"]
      -- announce groups
      out [.str g.colors.color_green_bold, .str "    ", .str "announce groups",
           .str g.colors.color_none, .str "\n"]
      forRange (fun i ag => do
          out [.str g.colors.color_yellow_bold, .str "        ", .int i,
               .str g.colors.color_none, .str "\n"]
          forRange (fun _ a => out [.str "            ", .str a, .str "\n"]) 0 ag)
        0 mi.AnnounceList
      -- created on
      out [.str g.colors.color_green_bold, .str "    ", .str "created on",
           .str g.colors.color_none, .str "\n",
           .str "        ", .time mi.CreationDate, .str "\n"]
      -- comment
      if mi.Comment ≠ "" then
        out [.str g.colors.color_green_bold, .str "    ", .str "comment",
             .str g.colors.color_none, .str "\n",
             .str "        ", .str mi.Comment, .str "\n"]
      -- created by
      if mi.CreatedBy ≠ "" then
        out [.str g.colors.color_green_bold, .str "    ", .str "created by",
             .str g.colors.color_none, .str "\n",
             .str "        ", .str mi.CreatedBy, .str "\n"]
      -- encoding
      if mi.Encoding ≠ "" then
        out [.str g.colors.color_green_bold, .str "    ", .str "encoding",
             .str g.colors.color_none, .str "\n",
             .str "        ", .str mi.Encoding, .str "\n"]
      -- url list
      if mi.WebSeedURLs.length > 0 then do
        out [.str g.colors.color_green_bold, .str "    ", .str "webseed urls",
             .str g.colors.color_none, .str "\n"]
        forRange (fun _ url => out [.str "        ", .str url, .str "\n"]) 0 mi.WebSeedURLs
      if mi.Files.length = 1 then do
        out [.str g.colors.color_green_bold, .str "    ", .str "name",
             .str g.colors.color_none, .str " (single file)\n",
             .str "        ", .str g.colors.color_yellow, .str mi.Name,
             .str g.colors.color_none, .str "\n"]
        let f ← index mi.Files 0
        out [.str g.colors.color_green_bold, .str "    ", .str "length",
             .str g.colors.color_none, .str "\n",
             .str "        ", .str g.colors.color_cyan, .str (env.IBytes (uint64 f.Length)),
             .str g.colors.color_none, .str "\n"]
      else do
        out [.str g.colors.color_green_bold, .str "    ", .str "name",
             .str g.colors.color_none, .str " (multiple files)\n",
             .str "        ", .str g.colors.color_yellow, .str mi.Name,
             .str g.colors.color_none, .str "\n"]
        out [.str g.colors.color_green_bold, .str "    ", .str "files",
             .str g.colors.color_none, .str " (", .int mi.Files.length, .str ")\n"]
        forRange (fun _ f =>
            out [.str "        ", .str (env.Join f.Path),
                 .str " (", .str g.colors.color_cyan, .str (env.IBytes (uint64 f.Length)),
                 .str g.colors.color_none, .str ")\n"])
          0 mi.Files
      out [.str "\n"]) : Run Unit) := rfl

theorem show_long_run (g : Globals) (env : Env) (filename : String) (mi : MetaInfo) :
    show_long g env filename mi =
      ⟨[.call .show_long filename,
        .out [.str g.colors.color_white_bold, .str filename, .str g.colors.color_none, .str "\n"],
        .out [.str g.colors.color_green_bold, .str "    ", .str "announce groups",
              .str g.colors.color_none, .str "\n"]]
        ++ (forRange (fun i ag => do
              out [.str g.colors.color_yellow_bold, .str "        ", .int i,
                   .str g.colors.color_none, .str "\n"]
              forRange (fun _ a => out [.str "            ", .str a, .str "\n"]) 0 ag)
            0 mi.AnnounceList).events
        ++ [.out [.str g.colors.color_green_bold, .str "    ", .str "created on",
              .str g.colors.color_none, .str "\n",
              .str "        ", .time mi.CreationDate, .str "\n"]]
        ++ (if mi.Comment ≠ "" then
              [.out [.str g.colors.color_green_bold, .str "    ", .str "comment",
                .str g.colors.color_none, .str "\n",
                .str "        ", .str mi.Comment, .str "\n"]] else [])
        ++ (if mi.CreatedBy ≠ "" then
              [.out [.str g.colors.color_green_bold, .str "    ", .str "created by",
                .str g.colors.color_none, .str "\n",
                .str "        ", .str mi.CreatedBy, .str "\n"]] else [])
        ++ (if mi.Encoding ≠ "" then
              [.out [.str g.colors.color_green_bold, .str "    ", .str "encoding",
                .str g.colors.color_none, .str "\n",
                .str "        ", .str mi.Encoding, .str "\n"]] else [])
        ++ (if mi.WebSeedURLs ≠ [] then
              [.out [.str g.colors.color_green_bold, .str "    ", .str "webseed urls",
                .str g.colors.color_none, .str "\n"]]
              ++ (forRange (fun _ url => out [.str "        ", .str url, .str "\n"])
                    0 mi.WebSeedURLs).events
            else [])
        ++ (if mi.Files.length = 1 then
              [.out [.str g.colors.color_green_bold, .str "    ", .str "name",
                .str g.colors.color_none, .str " (single file)\n",
                .str "        ", .str g.colors.color_yellow, .str mi.Name,
                .str g.colors.color_none, .str "\n"],
               .out [.str g.colors.color_green_bold, .str "    ", .str "length",
                .str g.colors.color_none, .str "\n",
                .str "        ", .str g.colors.color_cyan,
                .str (env.IBytes (shown_total mi)),
                .str g.colors.color_none, .str "\n"]]
            else
              [.out [.str g.colors.color_green_bold, .str "    ", .str "name",
                .str g.colors.color_none, .str " (multiple files)\n",
                .str "        ", .str g.colors.color_yellow, .str mi.Name,
                .str g.colors.color_none, .str "\n"],
               .out [.str g.colors.color_green_bold, .str "    ", .str "files",
                .str g.colors.color_none, .str " (", .int mi.Files.length, .str ")\n"]]
              ++ (forRange (fun _ f =>
                    out [.str "        ", .str (env.Join f.Path),
                      .str " (", .str g.colors.color_cyan,
                      .str (env.IBytes (uint64 f.Length)),
                      .str g.colors.color_none, .str ")\n"])
                  0 mi.Files).events)
        ++ [.out [.str "\n"]],
       some ()⟩ := by
  rw [show_long_eq]
  rw [Run.bind_ok _ _ rfl, Run.bind_ok _ _ rfl, Run.bind_ok _ _ rfl,
    Run.bind_ok _ _ (announce_val g _ _), Run.bind_ok _ _ rfl]
  have hW := forRange_out_val (fun (_ : Nat) (url : String) =>
    [Arg.str "        ", Arg.str url, Arg.str "\n"]) mi.WebSeedURLs 0
  have hF := forRange_out_val (fun (_ : Nat) (f : FileInfo) =>
    [Arg.str "        ", Arg.str (env.Join f.Path),
      Arg.str " (", Arg.str g.colors.color_cyan,
      Arg.str (env.IBytes (uint64 f.Length)),
      Arg.str g.colors.color_none, Arg.str ")\n"]) mi.Files 0
  have hW0 : mi.WebSeedURLs = [] → ¬ (mi.WebSeedURLs.length > 0) := by
    intro h; simp [h]
  have hW1 : mi.WebSeedURLs ≠ [] → mi.WebSeedURLs.length > 0 :=
    fun h => List.length_pos.mpr h
  by_cases h5 : mi.Files.length = 1
  · obtain ⟨f, hf⟩ := List.length_eq_one.mp h5
    have hs : shown_total mi = uint64 f.Length := by simp [shown_total, hf]
    by_cases h1 : mi.Comment = "" <;> by_cases h2 : mi.CreatedBy = "" <;>
      by_cases h3 : mi.Encoding = "" <;> by_cases h4 : mi.WebSeedURLs = [] <;>
      simp [h1, h2, h3, h4, hf, hs, hW0, hW1, Run.bind_def, Run.andThen, hW, index]
  · by_cases h1 : mi.Comment = "" <;> by_cases h2 : mi.CreatedBy = "" <;>
      by_cases h3 : mi.Encoding = "" <;> by_cases h4 : mi.WebSeedURLs = [] <;>
      simp [h1, h2, h3, h4, h5, hW0, hW1, Run.bind_def, Run.andThen, hW, hF]
/-! ## Characters of formatted integers -/

theorem digitChar_isDigit (k : Nat) (h : k < 10) : (Nat.digitChar k).isDigit = true := by
  interval_cases k <;> decide

theorem toDigitsCore_isDigit (fuel : Nat) : ∀ (n : Nat) (ds : List Char),
    (∀ c ∈ ds, c.isDigit = true) → ∀ c ∈ Nat.toDigitsCore 10 fuel n ds, c.isDigit = true := by
  induction fuel with
  | zero => intro n ds h c hc; simpa [Nat.toDigitsCore] using h c (by simpa [Nat.toDigitsCore] using hc)
  | succ fuel ih =>
    intro n ds h c hc
    have hd : (Nat.digitChar (n % 10)).isDigit = true := digitChar_isDigit _ (Nat.mod_lt _ (by norm_num))
    have hds : ∀ c ∈ Nat.digitChar (n % 10) :: ds, c.isDigit = true := by
      intro c hc
      rcases List.mem_cons.mp hc with rfl | hc
      · exact hd
      · exact h c hc
    unfold Nat.toDigitsCore at hc
    simp only at hc
    by_cases h0 : n / 10 = 0
    · rw [if_pos h0] at hc
      exact hds c hc
    · rw [if_neg h0] at hc
      exact ih _ _ hds c hc

theorem toString_nat_isDigit (n : Nat) : ∀ c ∈ (toString n).data, c.isDigit = true := by
  intro c hc
  have : (toString n).data = Nat.toDigits 10 n := rfl
  rw [this] at hc
  exact toDigitsCore_isDigit _ _ _ (by simp) c hc

theorem toString_int_chars (i : Int) : ∀ c ∈ (toString i).data, c.isDigit = true ∨ c = '-' := by
  intro c hc
  cases i with
  | ofNat n => exact Or.inl (toString_nat_isDigit n c hc)
  | negSucc n =>
    have : (toString (Int.negSucc n)).data = '-' :: (toString (n + 1)).data := rfl
    rw [this] at hc
    rcases List.mem_cons.mp hc with rfl | hc
    · exact Or.inr rfl
    · exact Or.inl (toString_nat_isDigit _ c hc)

/-! ## `show_short` -/

theorem count_newline_nat (n : Nat) : (toString n).data.count '\n' = 0 := by
  apply List.count_eq_zero_of_not_mem
  intro h
  have := toString_nat_isDigit n _ h
  revert this
  decide


/-- C1. With the colours cleared, `show_short` completes and writes exactly
the line `filename` and the line made of four spaces, the name, the humanized
size in parentheses with ` in N file` for one file entry and ` in N files` for
any other count (two lines when none of the strings holds a newline); for the
torrent `ubuntu.iso` with one entry of 1610612736
bytes, humanized as `1.5 GiB`, the second line is
`    ubuntu.iso (1.5 GiB in 1 file)`. -/
theorem show_short_plain_text (m : view_mode) (r : Bool) (c : Colors) (env : Env)
    (filename : String) (mi : MetaInfo) :
    (show_short ⟨m, r, clear_colors c⟩ env filename mi).val = some () ∧
    text env (show_short ⟨m, r, clear_colors c⟩ env filename mi).events =
      filename ++ "\n" ++
      ("    " ++ mi.Name ++ " (" ++ env.IBytes (shown_total mi) ++ " in "
        ++ toString mi.Files.length
        ++ (if mi.Files.length = 1 then " file)" else " files)")) ++ "\n" ∧
    ('\n' ∉ filename.data → '\n' ∉ mi.Name.data →
      '\n' ∉ (env.IBytes (shown_total mi)).data →
      (text env (show_short ⟨m, r, clear_colors c⟩ env filename mi).events).data.count '\n'
        = 2) ∧
    (mi.Name = "ubuntu.iso" → (∃ p, mi.Files = [⟨1610612736, p⟩]) →
      env.IBytes 1610612736 = "1.5 GiB" →
      text env (show_short ⟨m, r, clear_colors c⟩ env filename mi).events =
        filename ++ "\n" ++ "    ubuntu.iso (1.5 GiB in 1 file)" ++ "\n") := by
  rw [show_short_run]
  refine ⟨rfl, ?_, ?_, ?_⟩
  · by_cases h : mi.Files.length = 1
    · simp [h, text, Fprint, doPrint, Arg.isString, Arg.format, clear_colors,
        String.append_assoc]
      rfl
    · simp [h, text, Fprint, doPrint, Arg.isString, Arg.format, clear_colors,
        String.append_assoc, toString_natCast]
  · intro h1 h2 h3
    have c0 : ∀ s : String, '\n' ∉ s.data → s.data.count '\n' = 0 :=
      fun s h => List.count_eq_zero_of_not_mem h
    have hN := count_newline_nat mi.Files.length
    by_cases h : mi.Files.length = 1
    · simp +decide [h, text, Fprint, doPrint, Arg.isString, Arg.format, clear_colors,
        List.count_append, c0 _ h1, c0 _ h2, c0 _ h3]
    · simp +decide [h, text, Fprint, doPrint, Arg.isString, Arg.format, clear_colors,
        List.count_append, c0 _ h1, c0 _ h2, c0 _ h3, toString_natCast, hN]
  · rintro hn ⟨p, hp⟩ hI
    simp [hn, hp, shown_total, uint64, hI, text, Fprint, doPrint, Arg.isString, Arg.format,
      clear_colors, String.append_assoc]
    rfl

/-- Witness for C1: the `ubuntu.iso` scenario with the reference model of
`humanize.IBytes`. -/
theorem show_short_plain_text_ubuntu :
    text ubuntuEnv (show_short (plain .view_short false) ubuntuEnv "u.torrent" ubuntu).events =
      "u.torrent" ++ "\n" ++ "    ubuntu.iso (1.5 GiB in 1 file)" ++ "\n" :=
  (show_short_plain_text .view_short false default_colors ubuntuEnv "u.torrent" ubuntu).2.2.2
    rfl ⟨_, rfl⟩ (by decide)

/-- C2. For a metadata with more than one file entry, the size operand of
`show_short` and of the `total size` row of `show_basic` is the humanization
of the sum of all `Length` values taken as a `uint64`; the row is emitted
whenever `show_basic` gets past the tracker row, no other row carries that
label, and for non-negative lengths with a sum below `2^63` the humanized
number is the exact sum. -/
theorem total_size_is_sum (g : Globals) (env : Env) (filename : String) (mi : MetaInfo)
    (hN : 1 < mi.Files.length) :
    outs (show_short g env filename mi).events =
      [[.str g.colors.color_white_bold, .str filename, .str g.colors.color_none, .str "\n",
        .str "    ", .str g.colors.color_yellow, .str mi.Name, .str g.colors.color_none,
        .str " (", .str g.colors.color_cyan, .str (env.IBytes (shown_total mi)),
        .str g.colors.color_none, .str " in ", .int mi.Files.length],
       [.str " files)\n"]] ∧
    (∀ url, first_tracker mi = some url →
      [.str g.colors.color_green_bold, .str "\ttotal size\t", .str g.colors.color_none,
        .str g.colors.color_cyan, .str (env.IBytes (shown_total mi)),
        .str g.colors.color_none, .str "\n"] ∈ outs (show_basic g env filename mi).events) ∧
    (∀ row ∈ outs (show_basic g env filename mi).events,
      5 ≤ row.length → row[1]? = some (.str "\ttotal size\t") →
      row[4]? = some (.str (env.IBytes (shown_total mi)))) ∧
    (shown_total mi : Int) = (mi.Files.map FileInfo.Length).sum % 2 ^ 64 ∧
    ((∀ f ∈ mi.Files, 0 ≤ f.Length) → (mi.Files.map FileInfo.Length).sum < 2 ^ 63 →
      (shown_total mi : Int) = (mi.Files.map FileInfo.Length).sum) := by
  have hne : mi.Files.length ≠ 1 := by omega
  have hmod : (shown_total mi : Int) = (mi.Files.map FileInfo.Length).sum % 2 ^ 64 := by
    unfold shown_total uint64
    exact Int.toNat_of_nonneg (Int.emod_nonneg _ (by norm_num))
  refine ⟨?_, ?_, ?_, hmod, ?_⟩
  · rw [show_short_run]
    simp [outs, hne]
  · intro url hu
    rw [show_basic_run_ok g env filename mi url hu]
    simp [outs, hne]
  · intro row hrow h5 h1
    cases hu : first_tracker mi with
    | none =>
      rw [show_basic_run_fault g env filename mi hu] at hrow
      simp [outs] at hrow
      rcases hrow with rfl | rfl
      · simp at h5
      · simp at h1
    | some url =>
      rw [show_basic_run_ok g env filename mi url hu] at hrow
      simp [outs, hne] at hrow
      rcases hrow with rfl | rfl | rfl | rfl | rfl | rfl | rfl | rfl
      · simp at h5
      · simp at h1
      · simp at h1
      · simp at h1
      · simp at h1
      · simp at h1
      · simp
      · simp at h5
  · intro hpos hlt
    rw [hmod]
    have h0 : 0 ≤ (mi.Files.map FileInfo.Length).sum := by
      apply List.sum_nonneg
      intro x hx
      obtain ⟨f, hf, rfl⟩ := List.mem_map.mp hx
      exact hpos f hf
    omega

/-- Witness for C2: the two-file torrent `album`, 3000 + 5000 bytes. -/
theorem total_size_is_sum_album :
    (shown_total album : Int) = 8000 ∧
    outs (show_short (plain .view_short false) ubuntuEnv "a.torrent" album).events =
      [[.str "", .str "a.torrent", .str "", .str "\n", .str "    ", .str "", .str "album",
        .str "", .str " (", .str "", .str "7.8 KiB", .str "", .str " in ", .int 2],
       [.str " files)\n"]] :=
  ⟨((total_size_is_sum (plain .view_short false) ubuntuEnv "a.torrent" album
      (by decide)).2.2.2.2 (by decide) (by decide)).trans (by decide),
   (total_size_is_sum (plain .view_short false) ubuntuEnv "a.torrent" album
      (by decide)).1.trans (by decide)⟩

/-! ## `show_basic` -/

/-- C3. When `AnnounceList[0][0]` exists (it is `url`), `show_basic` completes
and writes the filename header, then the rows `name`, `tracker url`,
`created by`, `created on`, then `file name` and `file size` for exactly one
file entry and `num files` and `total size` otherwise, then an empty line; a
row is the green-bold colour, a tab, the label, a tab, the reset colour, the
value and a newline, which with the colours cleared is tab, label, tab, value;
when no string shown contains a newline the text has exactly eight lines. -/
theorem show_basic_text (g : Globals) (env : Env) (filename : String) (mi : MetaInfo)
    (url : String) (hu : first_tracker mi = some url) :
    (show_basic g env filename mi).val = some () ∧
    text env (show_basic g env filename mi).events =
      g.colors.color_white_bold ++ filename ++ g.colors.color_none ++ "\n"
      ++ basic_row g.colors "name" (g.colors.color_yellow ++ mi.Name ++ g.colors.color_none)
      ++ basic_row g.colors "tracker url" url
      ++ basic_row g.colors "created by" mi.CreatedBy
      ++ basic_row g.colors "created on"
          (g.colors.color_magenta ++ env.timeString mi.CreationDate ++ g.colors.color_none)
      ++ (if mi.Files.length = 1 then
            basic_row g.colors "file name" mi.Name
            ++ basic_row g.colors "file size"
                (g.colors.color_cyan ++ env.IBytes (shown_total mi) ++ g.colors.color_none)
          else
            basic_row g.colors "num files" (toString mi.Files.length)
            ++ basic_row g.colors "total size"
                (g.colors.color_cyan ++ env.IBytes (shown_total mi) ++ g.colors.color_none))
      ++ "\n" ∧
    (∀ c label value, basic_row (clear_colors c) label value
        = "\t" ++ label ++ "\t" ++ value ++ "\n") ∧
    ((∀ s ∈ g.colors.all, '\n' ∉ s.data) →
      (∀ s ∈ [filename, mi.Name, url, mi.CreatedBy, env.timeString mi.CreationDate,
          env.IBytes (shown_total mi)], '\n' ∉ s.data) →
      (text env (show_basic g env filename mi).events).data.count '\n' = 8) := by
  have htext : text env (show_basic g env filename mi).events =
      g.colors.color_white_bold ++ filename ++ g.colors.color_none ++ "\n"
      ++ basic_row g.colors "name" (g.colors.color_yellow ++ mi.Name ++ g.colors.color_none)
      ++ basic_row g.colors "tracker url" url
      ++ basic_row g.colors "created by" mi.CreatedBy
      ++ basic_row g.colors "created on"
          (g.colors.color_magenta ++ env.timeString mi.CreationDate ++ g.colors.color_none)
      ++ (if mi.Files.length = 1 then
            basic_row g.colors "file name" mi.Name
            ++ basic_row g.colors "file size"
                (g.colors.color_cyan ++ env.IBytes (shown_total mi) ++ g.colors.color_none)
          else
            basic_row g.colors "num files" (toString mi.Files.length)
            ++ basic_row g.colors "total size"
                (g.colors.color_cyan ++ env.IBytes (shown_total mi) ++ g.colors.color_none))
      ++ "\n" := by
    rw [show_basic_run_ok g env filename mi url hu]
    by_cases h : mi.Files.length = 1
    · simp [h, text, Fprint, doPrint, Arg.isString, Arg.format, basic_row, String.append_assoc]
    · simp [h, text, Fprint, doPrint, Arg.isString, Arg.format, basic_row, String.append_assoc,
        toString_natCast]
  refine ⟨?_, htext, ?_, ?_⟩
  · rw [show_basic_run_ok g env filename mi url hu]
  · intro c label value
    simp [basic_row, clear_colors]
  · intro hc hs
    rw [htext]
    have c0 : ∀ s : String, '\n' ∉ s.data → s.data.count '\n' = 0 :=
      fun s h => List.count_eq_zero_of_not_mem h
    simp only [Colors.all, List.mem_cons, List.mem_singleton, forall_eq_or_imp, forall_eq,
      List.not_mem_nil, false_implies, implies_true, and_true] at hc hs
    obtain ⟨-, -, -, hgb, hy, -, -, -, hm, -, hcy, -, -, hwb, hn⟩ := hc
    obtain ⟨h1, h2, h3, h4, h5, h6⟩ := hs
    have e1 : ("\n" : String).data.count '\n' = 1 := by decide
    have e2 : ("\t" : String).data.count '\n' = 0 := by decide
    by_cases h : mi.Files.length = 1
    · simp only [h, if_true, basic_row, String.data_append, List.count_append, c0 _ hgb,
        c0 _ hy, c0 _ hm, c0 _ hcy, c0 _ hwb, c0 _ hn, c0 _ h1, c0 _ h2, c0 _ h3, c0 _ h4,
        c0 _ h5, c0 _ h6, e1, e2]
      decide
    · simp only [h, if_false, basic_row, String.data_append, List.count_append, c0 _ hgb,
        c0 _ hy, c0 _ hm, c0 _ hcy, c0 _ hwb, c0 _ hn, c0 _ h1, c0 _ h2, c0 _ h3, c0 _ h4,
        c0 _ h5, c0 _ h6, e1, e2, count_newline_nat]
      decide

/-- Witness for C3: the `ubuntu.iso` torrent, colours cleared. -/
theorem show_basic_text_ubuntu :
    text ubuntuEnv (show_basic (plain .view_basic false) ubuntuEnv "u.torrent" ubuntu).events =
      "u.torrent\n\tname\tubuntu.iso\n\ttracker url\thttp://tracker.example/announce\n"
      ++ "\tcreated by\tmktorrent\n\tcreated on\t1356998400\n"
      ++ "\tfile name\tubuntu.iso\n\tfile size\t1.5 GiB\n\n" ∧
    (text ubuntuEnv
      (show_basic (plain .view_basic false) ubuntuEnv "u.torrent" ubuntu).events).data.count
        '\n' = 8 :=
  ⟨((show_basic_text (plain .view_basic false) ubuntuEnv "u.torrent" ubuntu
      "http://tracker.example/announce" rfl).2.1).trans (by decide),
   (show_basic_text (plain .view_basic false) ubuntuEnv "u.torrent" ubuntu
      "http://tracker.example/announce" rfl).2.2.2 (by decide) (by decide)⟩

/-! ## Observations distribute over sequencing -/

theorem Run.events_bind {α β : Type} (x : Run α) (f : α → Run β) :
    (x >>= f).events = x.events ++
      (match x.val with
       | none => []
       | some a => (f a).events) := by
  rw [Run.bind_def]
  unfold Run.andThen
  cases x.val <;> simp

theorem outs_append (a b : List Event) : outs (a ++ b) = outs a ++ outs b := by
  simp [outs, List.filterMap_append]

theorem calls_append (fn : Fn) (a b : List Event) :
    calls fn (a ++ b) = calls fn a ++ calls fn b := by
  simp [calls, List.filterMap_append]

theorem column_append (k n : Nat) (a b : List Event) :
    column k n (a ++ b) = column k n a ++ column k n b := by
  simp [column, outs_append, List.filterMap_append]

theorem sections_append (a b : List Event) : sections (a ++ b) = sections a ++ sections b := by
  simp [sections, column_append, List.filterMap_append]

theorem lone_operands_append (a b : List Event) :
    lone_operands (a ++ b) = lone_operands a ++ lone_operands b := by
  simp [lone_operands, outs_append, List.filter_append]

theorem forRange_obs_nil {α β : Type} (obs : List Event → List β) (h0 : obs [] = [])
    (happ : ∀ a b, obs (a ++ b) = obs a ++ obs b) (body : Nat → α → Run Unit)
    (hb : ∀ i x, obs (body i x).events = []) (xs : List α) (k : Nat) :
    obs (forRange body k xs).events = [] := by
  induction xs generalizing k with
  | nil => simpa [forRange] using h0
  | cons x xs ih =>
    unfold forRange
    rw [Run.events_bind, happ, hb]
    cases (body k x).val with
    | none => simpa using h0
    | some u => simpa using ih (k + 1)

theorem sections_nil : sections [] = [] := rfl

theorem sections_cons (e e' : Event) (es : List Event) :
    sections (e :: e' :: es) = sections [e] ++ sections (e' :: es) :=
  sections_append [e] (e' :: es)

theorem sections_call (fn : Fn) (n : String) : sections [.call fn n] = [] := rfl

theorem sections_out_short (args : List Arg) (h : args.length < 5) :
    sections [.out args] = [] := by
  have : ¬ 5 ≤ args.length := by omega
  simp [sections, column, outs, this]

theorem sections_out_int (a b : Arg) (i : Int) (rest : List Arg) :
    sections [.out (a :: b :: .int i :: rest)] = [] := by
  by_cases h : 5 ≤ (a :: b :: Arg.int i :: rest).length
  · simp [sections, column, outs, h]
  · simp [sections, column, outs, h]

theorem sections_out_str (a b d e : Arg) (s : String) (rest : List Arg) :
    sections [.out (a :: b :: .str s :: d :: e :: rest)] =
      if s ∈ long_labels then [s] else [] := by
  by_cases h : s ∈ long_labels
  · simp [sections, column, outs, h]
  · simp [sections, column, outs, h]

theorem sections_show_long (g : Globals) (env : Env) (filename : String) (mi : MetaInfo) :
    sections (show_long g env filename mi).events =
      ["announce groups", "created on"]
      ++ (if mi.Comment ≠ "" then ["comment"] else [])
      ++ (if mi.CreatedBy ≠ "" then ["created by"] else [])
      ++ (if mi.Encoding ≠ "" then ["encoding"] else [])
      ++ (if mi.WebSeedURLs ≠ [] then ["webseed urls"] else [])
      ++ ["name"]
      ++ (if mi.Files.length = 1 then ["length"] else ["files"]) := by
  rw [show_long_run]
  have hin : ∀ ag : List String, sections (forRange
      (fun (_ : Nat) (a : String) => out [.str "            ", .str a, .str "\n"]) 0 ag).events = [] :=
    fun ag => forRange_obs_nil sections sections_nil sections_append _
      (fun _ _ => sections_out_short _ (by simp)) ag 0
  have hA := forRange_obs_nil sections sections_nil sections_append
    (fun (i : Nat) (ag : List String) => do
      out [.str g.colors.color_yellow_bold, .str "        ", .int i,
           .str g.colors.color_none, .str "\n"]
      forRange (fun _ a => out [.str "            ", .str a, .str "\n"]) 0 ag)
    (by
      intro i ag
      show sections (out _ >>= fun _ => forRange _ 0 ag).events = []
      rw [Run.bind_ok _ _ rfl, sections_append, hin]
      exact (List.append_nil _).trans (sections_out_int _ _ _ _))
    mi.AnnounceList 0
  have hW := forRange_obs_nil sections sections_nil sections_append
    (fun (_ : Nat) (url : String) => out [.str "        ", .str url, .str "\n"])
    (fun _ _ => sections_out_short _ (by simp)) mi.WebSeedURLs 0
  have hF := forRange_obs_nil sections sections_nil sections_append
    (fun (_ : Nat) (f : FileInfo) =>
      out [.str "        ", .str (env.Join f.Path),
        .str " (", .str g.colors.color_cyan,
        .str (env.IBytes (uint64 f.Length)),
        .str g.colors.color_none, .str ")\n"])
    (fun _ _ => (sections_out_str _ _ _ _ _ _).trans (if_neg (by decide))) mi.Files 0
  have m1 : "announce groups" ∈ long_labels := by decide
  have m2 : "created on" ∈ long_labels := by decide
  have m3 : "comment" ∈ long_labels := by decide
  have m4 : "created by" ∈ long_labels := by decide
  have m5 : "encoding" ∈ long_labels := by decide
  have m6 : "webseed urls" ∈ long_labels := by decide
  have m7 : "name" ∈ long_labels := by decide
  have m8 : "length" ∈ long_labels := by decide
  have m9 : "files" ∈ long_labels := by decide
  have e4 : ∀ a b c d : Arg, sections [.out [a, b, c, d]] = [] :=
    fun a b c d => sections_out_short _ (by simp)
  have e1 : ∀ a : Arg, sections [.out [a]] = [] :=
    fun a => sections_out_short _ (by simp)
  simp only [sections_append, hA, hW, hF, sections_cons, sections_call, e4, e1,
    sections_out_str, sections_out_int, apply_ite sections, sections_nil,
    m1, m2, m3, m4, m5, m6, m7, m8, m9, if_true, List.append_nil, List.nil_append]
  by_cases h1 : mi.Comment = "" <;> by_cases h2 : mi.CreatedBy = "" <;>
    by_cases h3 : mi.Encoding = "" <;> by_cases h4 : mi.WebSeedURLs = [] <;>
    by_cases h5 : mi.Files.length = 1 <;>
    simp only [h1, h2, h3, h4, h5, ne_eq, not_true_eq_false, not_false_eq_true, if_true,
      if_false, List.append_nil, List.nil_append, List.cons_append, List.append_assoc]

/-! ## Single-file and multi-file branches -/

theorem column_basic_ok (g : Globals) (env : Env) (filename : String) (mi : MetaInfo)
    (url : String) (hu : first_tracker mi = some url) :
    column 1 5 (show_basic g env filename mi).events =
      [.str "\tname\t", .str "\ttracker url\t", .str "\tcreated by\t", .str "\tcreated on\t"]
      ++ (if mi.Files.length = 1 then [.str "\tfile name\t", .str "\tfile size\t"]
          else [.str "\tnum files\t", .str "\ttotal size\t"]) := by
  rw [show_basic_run_ok g env filename mi url hu]
  by_cases h : mi.Files.length = 1 <;> simp [h, column, outs]

theorem column_basic_fault (g : Globals) (env : Env) (filename : String) (mi : MetaInfo)
    (hu : first_tracker mi = none) :
    column 1 5 (show_basic g env filename mi).events = [.str "\tname\t"] := by
  rw [show_basic_run_fault g env filename mi hu]
  simp [column, outs]

theorem lone_operands_short (g : Globals) (env : Env) (filename : String) (mi : MetaInfo) :
    lone_operands (show_short g env filename mi).events =
      [.str (if mi.Files.length = 1 then " file)\n" else " files)\n")] := by
  rw [show_short_run]
  simp [lone_operands, outs]

/-- C4 as stated fails: for the `ubuntu.iso` torrent with an empty announce
list (one file entry), `show_basic` panics after the `name` row and shows
neither the single-file rows nor the multi-file rows. -/
theorem show_basic_no_branch_without_tracker :
    ubuntu_no_tracker.Files.length = 1 ∧
    (show_basic (plain .view_basic false) ubuntuEnv "u.torrent" ubuntu_no_tracker).val = none ∧
    ¬ BranchBy
      (column 1 5
        (show_basic (plain .view_basic false) ubuntuEnv "u.torrent" ubuntu_no_tracker).events)
      [.str "\tfile name\t", .str "\tfile size\t"]
      [.str "\tnum files\t", .str "\ttotal size\t"]
      ubuntu_no_tracker.Files.length := by
  refine ⟨rfl, ?_, ?_⟩
  · rw [show_basic_run_fault (plain .view_basic false) ubuntuEnv "u.torrent"
      ubuntu_no_tracker rfl]
  · rw [column_basic_fault (plain .view_basic false) ubuntuEnv "u.torrent"
      ubuntu_no_tracker rfl]
    unfold BranchBy
    simp [ubuntu_no_tracker, ubuntu]

/-- C4, amended. For a metadata with `N ≥ 1` file entries exactly one branch
is taken, the single-file one when `N = 1` and the multi-file one when
`N > 1`: `show_short` closes with ` file)` or ` files)`, `show_long` has the
section `length` or the section `files`, and `show_basic`, when
`AnnounceList[0][0]` exists, has the rows `file name`, `file size` or the rows
`num files`, `total size`; for every metadata `show_basic` never shows rows of
both groups. -/
theorem files_branch_exclusive (g : Globals) (env : Env) (filename : String) (mi : MetaInfo)
    (hN : 1 ≤ mi.Files.length) :
    BranchBy (lone_operands (show_short g env filename mi).events)
      [.str " file)\n"] [.str " files)\n"] mi.Files.length ∧
    BranchBy ((sections (show_long g env filename mi).events).map Arg.str)
      [.str "length"] [.str "files"] mi.Files.length ∧
    (first_tracker mi ≠ none →
      BranchBy (column 1 5 (show_basic g env filename mi).events)
        [.str "\tfile name\t", .str "\tfile size\t"]
        [.str "\tnum files\t", .str "\ttotal size\t"] mi.Files.length) ∧
    ¬ ((∃ a ∈ [Arg.str "\tfile name\t", .str "\tfile size\t"],
          a ∈ column 1 5 (show_basic g env filename mi).events) ∧
       (∃ a ∈ [Arg.str "\tnum files\t", .str "\ttotal size\t"],
          a ∈ column 1 5 (show_basic g env filename mi).events)) := by
  have hcase : mi.Files.length = 1 ∨ 1 < mi.Files.length := by omega
  refine ⟨?_, ?_, ?_, ?_⟩
  · rw [lone_operands_short]
    rcases hcase with h | h
    · exact Or.inl ⟨h, by simp [h], by simp [h]⟩
    · have hne : mi.Files.length ≠ 1 := by omega
      exact Or.inr ⟨h, by simp [hne], by simp [hne]⟩
  · rw [sections_show_long]
    rcases hcase with h | h
    · refine Or.inl ⟨h, ?_, ?_⟩
      · simp [h]
      · by_cases h1 : mi.Comment = "" <;> by_cases h2 : mi.CreatedBy = "" <;>
          by_cases h3 : mi.Encoding = "" <;> by_cases h4 : mi.WebSeedURLs = [] <;>
          simp [h, h1, h2, h3, h4]
    · have hne : mi.Files.length ≠ 1 := by omega
      refine Or.inr ⟨h, ?_, ?_⟩
      · simp [hne]
      · by_cases h1 : mi.Comment = "" <;> by_cases h2 : mi.CreatedBy = "" <;>
          by_cases h3 : mi.Encoding = "" <;> by_cases h4 : mi.WebSeedURLs = [] <;>
          simp [hne, h1, h2, h3, h4]
  · intro hu
    obtain ⟨url, hurl⟩ := Option.ne_none_iff_exists'.mp hu
    rw [column_basic_ok g env filename mi url hurl]
    rcases hcase with h | h
    · exact Or.inl ⟨h, by simp [h], by simp [h]⟩
    · have hne : mi.Files.length ≠ 1 := by omega
      exact Or.inr ⟨h, by simp [hne], by simp [hne]⟩
  · cases hu : first_tracker mi with
    | none =>
      rw [column_basic_fault g env filename mi hu]
      simp
    | some url =>
      rw [column_basic_ok g env filename mi url hu]
      by_cases h : mi.Files.length = 1 <;> simp [h]

/-- Witness for C4: the two-file torrent `album` takes the multi-file branch
in `show_short`. -/
theorem files_branch_exclusive_album :
    1 ≤ album.Files.length ∧
    BranchBy (lone_operands (show_short (plain .view_short false) ubuntuEnv "a" album).events)
      [.str " file)\n"] [.str " files)\n"] album.Files.length :=
  ⟨by decide, (files_branch_exclusive (plain .view_short false) ubuntuEnv "a" album
    (by decide)).1⟩

/-! ## Sections of `show_long` -/

/-- C5. `show_long` completes, and its section heads are `announce groups`
and `created on`, then `comment`, `created by`, `encoding` and `webseed urls`,
each present exactly when the field is non-empty, then `name` (followed by
`length` or `files`), in this order. -/
theorem show_long_sections (g : Globals) (env : Env) (filename : String) (mi : MetaInfo) :
    (show_long g env filename mi).val = some () ∧
    sections (show_long g env filename mi).events =
      ["announce groups", "created on"]
      ++ (if mi.Comment ≠ "" then ["comment"] else [])
      ++ (if mi.CreatedBy ≠ "" then ["created by"] else [])
      ++ (if mi.Encoding ≠ "" then ["encoding"] else [])
      ++ (if mi.WebSeedURLs ≠ [] then ["webseed urls"] else [])
      ++ ["name"]
      ++ (if mi.Files.length = 1 then ["length"] else ["files"]) ∧
    ("comment" ∈ sections (show_long g env filename mi).events ↔ mi.Comment ≠ "") ∧
    ("created by" ∈ sections (show_long g env filename mi).events ↔ mi.CreatedBy ≠ "") ∧
    ("encoding" ∈ sections (show_long g env filename mi).events ↔ mi.Encoding ≠ "") ∧
    ("webseed urls" ∈ sections (show_long g env filename mi).events ↔ mi.WebSeedURLs ≠ []) ∧
    "announce groups" ∈ sections (show_long g env filename mi).events ∧
    "created on" ∈ sections (show_long g env filename mi).events ∧
    (sections (show_long g env filename mi).events).Sublist long_labels := by
  refine ⟨?_, sections_show_long g env filename mi, ?_⟩
  · rw [show_long_run]
  · rw [sections_show_long]
    by_cases h1 : mi.Comment = "" <;> by_cases h2 : mi.CreatedBy = "" <;>
      by_cases h3 : mi.Encoding = "" <;> by_cases h4 : mi.WebSeedURLs = [] <;>
      by_cases h5 : mi.Files.length = 1 <;>
      simp only [h1, h2, h3, h4, h5, ne_eq, not_true_eq_false, not_false_eq_true, if_true,
        if_false, List.append_nil, List.nil_append, List.cons_append, List.append_assoc,
        iff_true, iff_false, true_and, and_true] <;>
      decide

/-! ## Colours and escape sequences -/

theorem doPrint_no_escape (env : Env) (args : List Arg)
    (h : ∀ a ∈ args, ESC ∉ (a.format env).data) (prev : Option Bool) :
    ESC ∉ (doPrint env prev args).data := by
  induction args generalizing prev with
  | nil => simp [doPrint]
  | cons a rest ih =>
    have ha := h a (List.mem_cons_self _ _)
    have hr := ih (fun b hb => h b (List.mem_cons_of_mem _ hb)) (some a.isString)
    unfold doPrint
    by_cases hp : (prev = some false && !a.isString) = true
    · simp +decide [hp, ha, hr]
    · simp +decide [hp, ha, hr]

theorem text_no_escape (env : Env) (es : List Event)
    (h : ∀ args ∈ outs es, ∀ a ∈ args, ESC ∉ (a.format env).data) :
    ESC ∉ (text env es).data := by
  induction es with
  | nil => simp +decide [text]
  | cons e es ih =>
    cases e with
    | call fn n =>
      exact ih (fun args hargs => h args (by simpa [outs] using hargs))
    | out args =>
      have h1 := doPrint_no_escape env args (h args (by simp [outs])) none
      have h2 := ih (fun b hb => h b (by
        simp only [outs, List.filterMap_cons, List.mem_cons]
        exact Or.inr hb))
      simp [text, Fprint, h1, h2]

theorem forRange_outs_forall {α : Type} (P : List Arg → Prop) (body : Nat → α → Run Unit)
    (xs : List α) (h : ∀ i, ∀ x ∈ xs, ∀ args ∈ outs (body i x).events, P args) (k : Nat) :
    ∀ args ∈ outs (forRange body k xs).events, P args := by
  induction xs generalizing k with
  | nil => simp [forRange, outs]
  | cons x xs ih =>
    intro args hargs
    unfold forRange at hargs
    rw [Run.events_bind, outs_append] at hargs
    rcases List.mem_append.mp hargs with h1 | h2
    · exact h k x (List.mem_cons_self _ _) args h1
    · cases hv : (body k x).val with
      | none => simp [hv, outs] at h2
      | some u =>
        rw [hv] at h2
        exact ih (fun i y hy => h i y (List.mem_cons_of_mem _ hy)) (k + 1) args h2

theorem int_no_escape (env : Env) (i : Int) : ESC ∉ ((Arg.int i).format env).data := by
  intro h
  rcases toString_int_chars i _ h with h | h
  · revert h; decide
  · revert h; decide

theorem tabs_no_escape :
    ESC ∉ ("    ").data ∧ ESC ∉ ("        ").data ∧ ESC ∉ ("            ").data := by
  decide

theorem show_long_no_escape (m : view_mode) (r : Bool) (c : Colors) (env : Env)
    (filename : String) (mi : MetaInfo)
    (hf : ESC ∉ filename.data) (hs : ∀ s ∈ mi.strings, ESC ∉ s.data)
    (he : ∀ s ∈ formatted env mi, ESC ∉ s.data) :
    ESC ∉ (text env (show_long ⟨m, r, clear_colors c⟩ env filename mi).events).data := by
  obtain ⟨t1, t2, t3⟩ := tabs_no_escape
  have hName : ESC ∉ mi.Name.data := hs _ (by simp [MetaInfo.strings])
  have hComment : ESC ∉ mi.Comment.data := hs _ (by simp [MetaInfo.strings])
  have hCreatedBy : ESC ∉ mi.CreatedBy.data := hs _ (by simp [MetaInfo.strings])
  have hEncoding : ESC ∉ mi.Encoding.data := hs _ (by simp [MetaInfo.strings])
  have hTime : ESC ∉ (env.timeString mi.CreationDate).data := he _ (by simp [formatted])
  have hTotal : ESC ∉ (env.IBytes (shown_total mi)).data := he _ (by simp [formatted])
  apply text_no_escape
  rw [show_long_run]
  simp only [outs_append, List.forall_mem_append]
  refine ⟨⟨⟨⟨⟨⟨⟨⟨?_, ?_⟩, ?_⟩, ?_⟩, ?_⟩, ?_⟩, ?_⟩, ?_⟩, ?_⟩
  · simp +decide [outs, Arg.format, clear_colors, hf, t1]
  · apply forRange_outs_forall
    intro i ag hag args hargs
    rw [Run.bind_ok _ _ rfl, outs_append] at hargs
    rcases List.mem_append.mp hargs with h1 | h2
    · simp only [Run.events_out, outs, List.filterMap_cons, List.filterMap_nil,
        List.mem_singleton] at h1
      subst h1
      have := int_no_escape env i
      simp +decide [Arg.format, clear_colors, t2] at this ⊢
      exact this
    · refine forRange_outs_forall (fun args => ∀ a ∈ args, ESC ∉ (a.format env).data)
        _ ag ?_ 0 args h2
      intro j a ha args hargs
      simp only [Run.events_out, outs, List.filterMap_cons, List.filterMap_nil,
        List.mem_singleton] at hargs
      subst hargs
      have hA : ESC ∉ a.data := hs _ (by
        simp only [MetaInfo.strings, List.mem_append, List.mem_flatten]
        exact Or.inl (Or.inr ⟨ag, hag, ha⟩))
      simp +decide [Arg.format, t3, hA]
  · simp +decide [outs, Arg.format, clear_colors, t1, t2, hTime]
  · by_cases h : mi.Comment = "" <;>
      simp +decide [h, outs, Arg.format, clear_colors, t1, t2, hComment]
  · by_cases h : mi.CreatedBy = "" <;>
      simp +decide [h, outs, Arg.format, clear_colors, t1, t2, hCreatedBy]
  · by_cases h : mi.Encoding = "" <;>
      simp +decide [h, outs, Arg.format, clear_colors, t1, t2, hEncoding]
  · by_cases h : mi.WebSeedURLs = []
    · simp [h, outs]
    · simp only [h, ne_eq, not_false_eq_true, if_true, outs_append, List.forall_mem_append]
      refine ⟨?_, ?_⟩
      · simp +decide [outs, Arg.format, clear_colors, t1]
      · apply forRange_outs_forall
        intro j a ha args hargs
        simp only [Run.events_out, outs, List.filterMap_cons, List.filterMap_nil,
          List.mem_singleton] at hargs
        subst hargs
        have hA : ESC ∉ a.data := hs _ (by
          simp only [MetaInfo.strings, List.mem_append]
          exact Or.inr ha)
        simp +decide [Arg.format, t2, hA]
  · by_cases h : mi.Files.length = 1
    · simp +decide [h, outs, Arg.format, clear_colors, t1, t2, hName, hTotal]
    · simp only [h, if_false, outs_append, List.forall_mem_append]
      refine ⟨?_, ?_⟩
      · have := int_no_escape env mi.Files.length
        simp +decide [outs, Arg.format, clear_colors, t1, t2, hName] at this ⊢
        exact this
      · apply forRange_outs_forall
        intro j f hfm args hargs
        simp only [Run.events_out, outs, List.filterMap_cons, List.filterMap_nil,
          List.mem_singleton] at hargs
        subst hargs
        have hJ : ESC ∉ (env.Join f.Path).data := he _ (by
          simp only [formatted, List.mem_append, List.mem_map]
          exact Or.inr ⟨f, hfm, rfl⟩)
        have hI : ESC ∉ (env.IBytes (uint64 f.Length)).data := he _ (by
          simp only [formatted, List.mem_append, List.mem_map]
          exact Or.inl (Or.inr ⟨f, hfm, rfl⟩))
        simp +decide [Arg.format, clear_colors, t2, hJ, hI]
  · simp +decide [outs, Arg.format]

theorem show_short_no_escape (m : view_mode) (r : Bool) (c : Colors) (env : Env)
    (filename : String) (mi : MetaInfo)
    (hf : ESC ∉ filename.data) (hs : ∀ s ∈ mi.strings, ESC ∉ s.data)
    (he : ∀ s ∈ formatted env mi, ESC ∉ s.data) :
    ESC ∉ (text env (show_short ⟨m, r, clear_colors c⟩ env filename mi).events).data := by
  have hName : ESC ∉ mi.Name.data := hs _ (by simp [MetaInfo.strings])
  have hTotal : ESC ∉ (env.IBytes (shown_total mi)).data := he _ (by simp [formatted])
  apply text_no_escape
  rw [show_short_run]
  have := int_no_escape env mi.Files.length
  by_cases h : mi.Files.length = 1
  · simp +decide [h, outs, Arg.format, clear_colors, hf, hName, hTotal]
  · simp +decide [h, outs, Arg.format, clear_colors, hf, hName, hTotal] at this ⊢
    exact this

theorem show_basic_no_escape (m : view_mode) (r : Bool) (c : Colors) (env : Env)
    (filename : String) (mi : MetaInfo)
    (hf : ESC ∉ filename.data) (hs : ∀ s ∈ mi.strings, ESC ∉ s.data)
    (he : ∀ s ∈ formatted env mi, ESC ∉ s.data) :
    ESC ∉ (text env (show_basic ⟨m, r, clear_colors c⟩ env filename mi).events).data := by
  have hName : ESC ∉ mi.Name.data := hs _ (by simp [MetaInfo.strings])
  have hCreatedBy : ESC ∉ mi.CreatedBy.data := hs _ (by simp [MetaInfo.strings])
  have hTime : ESC ∉ (env.timeString mi.CreationDate).data := he _ (by simp [formatted])
  have hTotal : ESC ∉ (env.IBytes (shown_total mi)).data := he _ (by simp [formatted])
  apply text_no_escape
  cases hu : first_tracker mi with
  | none =>
    rw [show_basic_run_fault _ env filename mi hu]
    simp +decide [outs, Arg.format, clear_colors, hf, hName]
  | some url =>
    have hUrl : ESC ∉ url.data := by
      unfold first_tracker at hu
      cases h0 : mi.AnnounceList[0]? with
      | none => simp [h0] at hu
      | some ag =>
        have h1 : ag[0]? = some url := by simpa [h0] using hu
        have hag : ag ∈ mi.AnnounceList := List.getElem?_mem h0
        have hurl : url ∈ ag := List.getElem?_mem h1
        exact hs _ (by
          simp only [MetaInfo.strings, List.mem_append, List.mem_flatten]
          exact Or.inl (Or.inr ⟨ag, hag, hurl⟩))
    rw [show_basic_run_ok _ env filename mi url hu]
    have := int_no_escape env mi.Files.length
    by_cases h : mi.Files.length = 1
    · simp +decide [h, outs, Arg.format, clear_colors, hf, hName, hCreatedBy, hTime, hTotal,
        hUrl]
    · simp +decide [h, outs, Arg.format, clear_colors, hf, hName, hCreatedBy, hTime, hTotal,
        hUrl] at this ⊢
      exact this

theorem text_starts_with (env : Env) (fn : Fn) (n : String) (rest : List Arg)
    (es : List Event) :
    coloured_start (text env (.call fn n :: .out (.str "\x1b[1;37m" :: rest) :: es)) := by
  refine ⟨?_, doPrint env (some true) rest ++ text env es, ?_⟩
  · simp +decide [text, Fprint, doPrint, Arg.format, Arg.isString]
  · simp [text, Fprint, doPrint, Arg.format, Arg.isString, String.append_assoc]

/-- C6. After `clear_colors` each of the fifteen colour variables is `""`,
and then the text written by `show_short`, `show_basic`, `show_long` and
`error_file_or_dir` contains no ESC character when the file name, the strings
of the metadata, the error message and the strings the collaborators produce
for the metadata contain none; with the initial colours the text written by
each of the four starts with the escape sequence of white-bold, so contains
an ESC character, for every input. -/
theorem colours_and_escapes (c : Colors) (m : view_mode) (r : Bool) (env : Env)
    (filename : String) (mi : MetaInfo) (msg : String) :
    ((clear_colors c).all.length = 15 ∧ ∀ s ∈ (clear_colors c).all, s = "") ∧
    (ESC ∉ filename.data → (∀ s ∈ mi.strings, ESC ∉ s.data) →
      (∀ s ∈ formatted env mi, ESC ∉ s.data) → ESC ∉ msg.data →
      ESC ∉ (text env (show_short ⟨m, r, clear_colors c⟩ env filename mi).events).data ∧
      ESC ∉ (text env (show_basic ⟨m, r, clear_colors c⟩ env filename mi).events).data ∧
      ESC ∉ (text env (show_long ⟨m, r, clear_colors c⟩ env filename mi).events).data ∧
      ESC ∉ (text env
        (error_file_or_dir ⟨m, r, clear_colors c⟩ filename msg).events).data) ∧
    (coloured_start (text env (show_short ⟨m, r, default_colors⟩ env filename mi).events) ∧
      coloured_start (text env (show_basic ⟨m, r, default_colors⟩ env filename mi).events) ∧
      coloured_start (text env (show_long ⟨m, r, default_colors⟩ env filename mi).events) ∧
      coloured_start (text env
        (error_file_or_dir ⟨m, r, default_colors⟩ filename msg).events)) := by
  refine ⟨⟨rfl, ?_⟩, ?_, ?_, ?_, ?_, ?_⟩
  · intro s hs
    simp only [Colors.all, clear_colors, List.mem_cons, List.mem_singleton, or_self,
      List.not_mem_nil, or_false] at hs
    exact hs
  · intro hf hs he hm
    refine ⟨show_short_no_escape m r c env filename mi hf hs he,
      show_basic_no_escape m r c env filename mi hf hs he,
      show_long_no_escape m r c env filename mi hf hs he, ?_⟩
    apply text_no_escape
    simp +decide [error_file_or_dir, Run.bind_ok, outs, Arg.format, clear_colors, hf, hm]
  · rw [show_short_run]
    exact text_starts_with _ _ _ _ _
  · cases hu : first_tracker mi with
    | none =>
      rw [show_basic_run_fault _ env filename mi hu]
      exact text_starts_with _ _ _ _ _
    | some url =>
      rw [show_basic_run_ok _ env filename mi url hu]
      exact text_starts_with _ _ _ _ _
  · rw [show_long_run]
    exact text_starts_with _ _ _ _ _
  · exact text_starts_with _ _ _ _ _

/-- Witness for C6: the two-file torrent `album` with the reference models,
without and with colours. -/
theorem colours_and_escapes_album :
    ESC ∉ (text ubuntuEnv
      (show_long (plain .view_long false) ubuntuEnv "a.torrent" album).events).data ∧
    coloured_start (text ubuntuEnv
      (show_long (coloured .view_long false) ubuntuEnv "a.torrent" album).events) :=
  ⟨((colours_and_escapes default_colors .view_long false ubuntuEnv "a.torrent" album
      "no such file").2.1 (by decide) (by decide) (by decide) (by decide)).2.2.1,
   (colours_and_escapes default_colors .view_long false ubuntuEnv "a.torrent" album
      "no such file").2.2.2.2.1⟩

/-! ## `show_file` -/

theorem calls_nil (fn : Fn) : calls fn [] = [] := rfl

theorem calls_enter (fn fn' : Fn) (n : String) :
    calls fn [.call fn' n] = if fn' = fn then [n] else [] := by
  by_cases h : fn' = fn <;> simp [calls, h]

theorem calls_out (fn : Fn) (args : List Arg) : calls fn (out args).events = [] := rfl

theorem calls_forRange_out {α : Type} (fn : Fn) (f : Nat → α → List Arg) (xs : List α)
    (k : Nat) : calls fn (forRange (fun i x => out (f i x)) k xs).events = [] :=
  forRange_obs_nil (calls fn) (calls_nil fn) (calls_append fn) (fun i x => out (f i x))
    (fun i x => calls_out fn (f i x)) xs k

theorem calls_show_short (fn : Fn) (g : Globals) (env : Env) (name : String) (mi : MetaInfo) :
    calls fn (show_short g env name mi).events = if fn = .show_short then [name] else [] := by
  rw [show_short_run]
  cases fn <;> simp [calls]

theorem calls_show_basic (fn : Fn) (g : Globals) (env : Env) (name : String) (mi : MetaInfo) :
    calls fn (show_basic g env name mi).events = if fn = .show_basic then [name] else [] := by
  cases hu : first_tracker mi with
  | none =>
    rw [show_basic_run_fault g env name mi hu]
    cases fn <;> simp [calls]
  | some url =>
    rw [show_basic_run_ok g env name mi url hu]
    by_cases h : mi.Files.length = 1 <;> cases fn <;> simp [calls, h]

theorem calls_show_long (fn : Fn) (g : Globals) (env : Env) (name : String) (mi : MetaInfo) :
    calls fn (show_long g env name mi).events = if fn = .show_long then [name] else [] := by
  rw [show_long_run]
  have hA := forRange_obs_nil (calls fn) (calls_nil fn) (calls_append fn)
    (fun (i : Nat) (ag : List String) => do
      out [.str g.colors.color_yellow_bold, .str "        ", .int i,
           .str g.colors.color_none, .str "\n"]
      forRange (fun _ a => out [.str "            ", .str a, .str "\n"]) 0 ag)
    (by
      intro i ag
      show calls fn (out _ >>= fun _ => forRange _ 0 ag).events = []
      rw [Run.bind_ok _ _ rfl, calls_append, calls_forRange_out]
      rfl)
    mi.AnnounceList 0
  simp only [calls_append, hA, calls_forRange_out, apply_ite (calls fn), calls_nil,
    List.append_nil, ite_self]
  cases fn <;> simp [calls]

/-- C7. When decoding `path` fails with message `msg`, `show_file` completes
after one call of `out` with the operands white-bold colour, `path`, reset
colour, ` (error: `, the error and `)` with a newline, so the text is the
white-bold colour, the path as given, the reset colour and ` (error: msg)`
followed by a newline; no renderer is entered. -/
theorem show_file_decode_error (g : Globals) (env : Env) (path msg : String)
    (h : env.LoadFromFile path = .error msg) :
    show_file g env path =
      ⟨[.call .show_file path, .call .error_file_or_dir path,
        .out [.str g.colors.color_white_bold, .str path, .str g.colors.color_none,
          .str " (error: ", .err msg, .str ")\n"]], some ()⟩ ∧
    text env (show_file g env path).events =
      g.colors.color_white_bold ++ path ++ g.colors.color_none
        ++ " (error: " ++ msg ++ ")" ++ "\n" ∧
    calls .show_short (show_file g env path).events = [] ∧
    calls .show_basic (show_file g env path).events = [] ∧
    calls .show_long (show_file g env path).events = [] := by
  have hrun : show_file g env path =
      ⟨[.call .show_file path, .call .error_file_or_dir path,
        .out [.str g.colors.color_white_bold, .str path, .str g.colors.color_none,
          .str " (error: ", .err msg, .str ")\n"]], some ()⟩ := by
    unfold show_file
    rw [h]
    simp [error_file_or_dir, Run.bind_ok]
  rw [hrun]
  refine ⟨rfl, ?_, rfl, rfl, rfl⟩
  simp [text, Fprint, doPrint, Arg.format, Arg.isString, String.append_assoc]

/-- Witness for C7: a file that does not decode, in long mode with `-r`. -/
theorem show_file_decode_error_sample :
    text (modelEnv (fun _ => .error "bad bencode") (fun _ => .ok false) (fun _ => .file))
      (show_file (coloured .view_long true)
        (modelEnv (fun _ => .error "bad bencode") (fun _ => .ok false) (fun _ => .file))
        "d/b.torrent").events =
      "\x1b[1;37md/b.torrent\x1b[0m (error: bad bencode)\n" :=
  ((show_file_decode_error (coloured .view_long true)
    (modelEnv (fun _ => .error "bad bencode") (fun _ => .ok false) (fun _ => .file))
    "d/b.torrent" "bad bencode" rfl).2.1).trans (by decide)

theorem SplitLoop_spec (p : List Char) (i : Nat) (hi : i ≤ p.length) :
    SplitLoop p i ≤ i ∧
    (∀ j, SplitLoop p i ≤ j → j < i → p[j]? ≠ some '/') ∧
    (SplitLoop p i = 0 ∨ p[SplitLoop p i - 1]? = some '/') := by
  induction i with
  | zero => simp [SplitLoop]
  | succ i ih =>
    obtain ⟨h1, h2, h3⟩ := ih (by omega)
    have hlt : i < p.length := by omega
    have hget : p[i]? = some p[i] := List.getElem?_eq_getElem hlt
    unfold SplitLoop
    rw [hget]
    by_cases hc : p[i] = '/'
    · simp only [hc, if_true]
      refine ⟨le_refl _, fun j hj1 hj2 => by omega, Or.inr ?_⟩
      simpa [hc] using hget
    · simp only [hc, if_false]
      refine ⟨by omega, ?_, h3⟩
      intro j hj1 hj2
      by_cases hji : j = i
      · subst hji
        rw [hget]
        simpa using hc
      · exact h2 j hj1 (by omega)

theorem Split_spec (path : String) :
    (Split path).1 ++ (Split path).2 = path ∧
    '/' ∉ (Split path).2.data ∧
    ((Split path).1 = "" ∨ (Split path).1.data.getLast? = some '/') := by
  obtain ⟨h1, h2, h3⟩ := SplitLoop_spec path.data path.data.length (le_refl _)
  refine ⟨?_, ?_, ?_⟩
  · apply String.ext
    simp [Split]
  · intro hmem
    simp only [Split] at hmem
    obtain ⟨n, hn⟩ := List.getElem?_of_mem hmem
    rw [List.getElem?_drop] at hn
    have hlen : SplitLoop path.data path.data.length + n < path.data.length := by
      by_contra hcon
      rw [List.getElem?_eq_none (by omega)] at hn
      exact Option.noConfusion hn
    exact h2 _ (by omega) hlen hn
  · by_cases h0 : SplitLoop path.data path.data.length = 0
    · left
      show (⟨List.take (SplitLoop path.data path.data.length) path.data⟩ : String) = ""
      rw [h0]
      rfl
    · right
      have hsl : path.data[SplitLoop path.data path.data.length - 1]? = some '/' := by
        rcases h3 with h | h
        · exact absurd h h0
        · exact h
      show (List.take (SplitLoop path.data path.data.length) path.data).getLast? = some '/'
      rw [List.getLast?_eq_getElem?, List.length_take, min_eq_left h1,
        List.getElem?_take_of_lt (by omega)]
      exact hsl

/-- C8. When `path` decodes to `mi`, `show_file` runs the renderer of the
current mode (`show_short`, `show_long` or `show_basic`) and no other, on
`mi` and on the name `path` itself when `recursive` is set, else on the second
component of `filepath.Split path`: the part of `path` after its last
separator, which contains no separator. -/
theorem show_file_renders (g : Globals) (env : Env) (path : String) (mi : MetaInfo)
    (h : env.LoadFromFile path = .ok mi) :
    show_file g env path =
      (enter .show_file path >>= fun _ =>
        match g.mode with
        | .view_short => show_short g env (if g.recursive then path else (Split path).2) mi
        | .view_long => show_long g env (if g.recursive then path else (Split path).2) mi
        | .view_basic => show_basic g env (if g.recursive then path else (Split path).2) mi) ∧
    calls g.mode.fn (show_file g env path).events
      = [if g.recursive then path else (Split path).2] ∧
    (∀ fn ∈ [Fn.show_short, Fn.show_basic, Fn.show_long, Fn.error_file_or_dir],
      fn ≠ g.mode.fn → calls fn (show_file g env path).events = []) ∧
    (Split path).1 ++ (Split path).2 = path ∧
    '/' ∉ (Split path).2.data ∧
    ((Split path).1 = "" ∨ (Split path).1.data.getLast? = some '/') := by
  have hrun : show_file g env path =
      (enter .show_file path >>= fun _ =>
        match g.mode with
        | .view_short => show_short g env (if g.recursive then path else (Split path).2) mi
        | .view_long => show_long g env (if g.recursive then path else (Split path).2) mi
        | .view_basic =>
          show_basic g env (if g.recursive then path else (Split path).2) mi) := by
    unfold show_file
    rw [h]
    cases g.recursive <;> rfl
  refine ⟨hrun, ?_, ?_, Split_spec path⟩
  · rw [hrun, Run.bind_ok _ _ rfl, calls_append]
    cases hm : g.mode
    · simp [view_mode.fn, calls_show_basic, calls_enter]
    · simp [view_mode.fn, calls_show_short, calls_enter]
    · simp [view_mode.fn, calls_show_long, calls_enter]
  · intro fn hfn hne
    rw [hrun, Run.bind_ok _ _ rfl, calls_append]
    cases hm : g.mode <;> rw [hm] at hne <;>
      simp only [List.mem_cons, List.mem_singleton, List.not_mem_nil, or_false] at hfn <;>
      rcases hfn with rfl | rfl | rfl | rfl <;>
      simp_all [view_mode.fn, calls_show_basic, calls_show_short, calls_show_long, calls_enter]

/-- Witness for C8: without `-r`, the file `d/sub/u.torrent` is shown under
the name `u.torrent`, in short mode. -/
theorem show_file_renders_sample :
    calls .show_short (show_file (plain .view_short false) ubuntuEnv "d/sub/u.torrent").events
      = ["u.torrent"] :=
  ((show_file_renders (plain .view_short false) ubuntuEnv "d/sub/u.torrent" ubuntu rfl).2.1).trans
    (by decide)

/-! ## `show_dir` -/

theorem Run.pure_bind {α β : Type} (a : α) (f : α → Run β) : (pure a >>= f) = f a := rfl

theorem calls_error_file_or_dir (g : Globals) (name err : String) :
    calls .show_file (error_file_or_dir g name err).events = [] := rfl

theorem calls_show_file_self (g : Globals) (env : Env) (p : String) :
    calls .show_file (show_file g env p).events = [p] := by
  unfold show_file
  rw [Run.bind_ok _ _ rfl, calls_append]
  cases env.LoadFromFile p with
  | error e => rfl
  | ok mi =>
    cases g.mode <;>
      simp [calls_show_basic, calls_show_short, calls_show_long, calls_enter]

theorem show_file_val (g : Globals) (env : Env) (p : String) (hm : g.mode ≠ .view_basic) :
    (show_file g env p).val = some () := by
  unfold show_file
  rw [Run.bind_ok _ _ rfl]
  cases env.LoadFromFile p with
  | error e => rfl
  | ok mi =>
    cases h : g.mode with
    | view_basic => exact absurd h hm
    | view_short => simp only [show_short_run]
    | view_long => simp only [show_long_run]

theorem walker_some (g : Globals) (env : Env) (d path : String) (b : Bool)
    (err : Option String) :
    walker g env d path (some b) err =
      if (b && !g.recursive && decide (path ≠ d)) = true then pure (some .SkipDir)
      else if err ≠ none then pure none
      else if Ext path = ".torrent" then (show_file g env path >>= fun _ => pure none)
      else pure none := rfl

theorem walker_none (g : Globals) (env : Env) (d path : String) (err : Option String) :
    walker g env d path none err = Run.fault := rfl

theorem walker_skip (g : Globals) (env : Env) (d path : String) (err : Option String)
    (hr : g.recursive = false) (hp : path ≠ d) :
    walker g env d path (some true) err = pure (some .SkipDir) := by
  rw [walker_some]
  simp [hr, hp]

theorem calls_pure {α : Type} (fn : Fn) (a : α) : calls fn (pure a : Run α).events = [] := rfl

theorem calls_show_file_then (g : Globals) (env : Env) (path : String) :
    calls .show_file (show_file g env path >>= fun _ => (pure none : Run (Option GoError))).events
      = [path] := by
  rw [Run.events_bind, calls_append, calls_show_file_self]
  cases (show_file g env path).val <;> rfl

theorem walker_calls (g : Globals) (env : Env) (d path : String) (info : Option Bool)
    (err : Option String) :
    ∀ p ∈ calls .show_file (walker g env d path info err).events,
      p = path ∧ Ext path = ".torrent" ∧ err = none ∧
      ∃ b, info = some b ∧ (b = true → g.recursive = true ∨ path = d) := by
  intro p hp
  cases info with
  | none => simp [walker_none, calls] at hp
  | some b =>
    rw [walker_some] at hp
    by_cases h1 : (b && !g.recursive && decide (path ≠ d)) = true
    · rw [if_pos h1, calls_pure] at hp
      exact absurd hp (List.not_mem_nil _)
    · rw [if_neg h1] at hp
      by_cases h2 : err ≠ none
      · rw [if_pos h2, calls_pure] at hp
        exact absurd hp (List.not_mem_nil _)
      · rw [if_neg h2] at hp
        by_cases h3 : Ext path = ".torrent"
        · rw [if_pos h3, calls_show_file_then] at hp
          refine ⟨by simpa using hp, h3, by simpa using h2, b, rfl, ?_⟩
          intro hb
          subst hb
          cases hr : g.recursive
          · right
            simpa [hr] using h1
          · left; rfl
        · rw [if_neg h3, calls_pure] at hp
          exact absurd hp (List.not_mem_nil _)

theorem walkEntries_cons (env : Env)
    (fn : String → Option Bool → Option String → Run (Option GoError))
    (path name : String) (node : Node) (rest : Entries) :
    walkEntries env fn path (.cons name node rest) =
      (walk env fn (env.Join [path, name]) node >>= fun err =>
        match node with
        | .bad _ =>
          if err ≠ none ∧ err ≠ some .SkipDir then pure err
          else walkEntries env fn path rest
        | _ =>
          if err ≠ none ∧ (!node.isDir ∨ err ≠ some .SkipDir) then pure err
          else walkEntries env fn path rest) := by
  rw [walkEntries]

theorem walk_dir (env : Env)
    (fn : String → Option Bool → Option String → Run (Option GoError))
    (path : String) (entries : Entries) :
    walk env fn path (.dir entries) =
      (fn path (some true) none >>= fun err1 =>
        if err1 ≠ none then pure err1 else walkEntries env fn path entries) := by
  rw [walk]

theorem walkEntries_cont_calls (env : Env)
    (fn : String → Option Bool → Option String → Run (Option GoError))
    (path : String) (node : Node) (rest : Entries) (err : Option GoError) (p : String)
    (hp : p ∈ calls .show_file
      (match node with
        | .bad _ =>
          if err ≠ none ∧ err ≠ some .SkipDir then pure err
          else walkEntries env fn path rest
        | _ =>
          if err ≠ none ∧ (!node.isDir ∨ err ≠ some .SkipDir) then pure err
          else walkEntries env fn path rest).events) :
    p ∈ calls .show_file (walkEntries env fn path rest).events := by
  cases node <;> simp only at hp <;> split at hp <;>
    first
      | exact hp
      | exact absurd hp (List.not_mem_nil _)

theorem walk_nonrec_child (g : Globals) (env : Env) (d filename : String) (node : Node)
    (hr : g.recursive = false) (hne : node.isDir = true → filename ≠ d) :
    ∀ p ∈ calls .show_file (walk env (walker g env d) filename node).events,
      node.isDir = false ∧ p = filename ∧ Ext p = ".torrent" := by
  intro p hp
  cases node with
  | file =>
    rw [walk] at hp
    obtain ⟨h1, h2, -, -⟩ := walker_calls g env d filename _ _ p hp
    exact ⟨rfl, h1, h1 ▸ h2⟩
  | bad err =>
    rw [walk, walker_none] at hp
    exact absurd hp (List.not_mem_nil _)
  | unreadable err =>
    rw [walk, walker_skip g env d filename _ hr (hne rfl)] at hp
    exact absurd hp (List.not_mem_nil _)
  | dir entries =>
    rw [walk_dir, walker_skip g env d filename _ hr (hne rfl), Run.pure_bind] at hp
    simp [calls_pure] at hp
    exact absurd hp (List.not_mem_nil _)

theorem walkEntries_nonrec (g : Globals) (env : Env) (d : String) (hr : g.recursive = false) :
    (es : Entries) →
    (∀ name node, (name, node) ∈ es.toList → node.isDir = true → env.Join [d, name] ≠ d) →
    ∀ p ∈ calls .show_file (walkEntries env (walker g env d) d es).events,
      ∃ name node, (name, node) ∈ es.toList ∧ node.isDir = false ∧
        p = env.Join [d, name] ∧ Ext p = ".torrent"
  | .nil, _ => by
    intro p hp
    rw [walkEntries] at hp
    exact absurd hp (List.not_mem_nil _)
  | .cons name node rest, hJ => by
    intro p hp
    rw [walkEntries_cons, Run.events_bind, calls_append] at hp
    rcases List.mem_append.mp hp with h | h
    · obtain ⟨h1, h2, h3⟩ := walk_nonrec_child g env d _ node hr
        (hJ name node (by simp [Entries.toList])) p h
      exact ⟨name, node, by simp [Entries.toList], h1, h2, h3⟩
    · cases hv : (walk env (walker g env d) (env.Join [d, name]) node).val with
      | none =>
        rw [hv] at h
        exact absurd h (List.not_mem_nil _)
      | some err =>
        rw [hv] at h
        have h' := walkEntries_cont_calls env _ d node rest err p h
        obtain ⟨n, x, hm, h1, h2, h3⟩ := walkEntries_nonrec g env d hr rest
          (fun n x hm => hJ n x (by simp [Entries.toList, hm])) p h'
        exact ⟨n, x, by simp [Entries.toList, hm], h1, h2, h3⟩

theorem calls_bind_silent {α β : Type} (fn : Fn) (x : Run α) (f : α → Run β)
    (h : ∀ a, calls fn (f a).events = []) :
    calls fn (x >>= f).events = calls fn x.events := by
  rw [Run.events_bind, calls_append]
  cases x.val with
  | none => exact List.append_nil _
  | some a => exact (congrArg _ (h a)).trans (List.append_nil _)

theorem show_dir_calls (g : Globals) (env : Env) (d : String) :
    calls .show_file (show_dir g env d).events
      = calls .show_file (walk env (walker g env d) d (env.Tree d)).events := by
  have h1 : show_dir g env d =
      (enter .show_dir d >>= fun _ =>
        (Walk env d (walker g env d) >>= fun _ => (pure () : Run Unit))) := rfl
  have h2 := calls_bind_silent .show_file (Walk env d (walker g env d))
    (fun _ => (pure () : Run Unit)) (fun _ => rfl)
  have h3 : Walk env d (walker g env d) =
      (walk env (walker g env d) d (env.Tree d) >>= fun err =>
        if err = some .SkipDir then (pure none : Run (Option GoError)) else pure err) := rfl
  have h4 := calls_bind_silent .show_file (walk env (walker g env d) d (env.Tree d))
    (fun err => if err = some .SkipDir then (pure none : Run (Option GoError)) else pure err)
    (fun a => by
      show calls .show_file
        (if a = some .SkipDir then (pure none : Run (Option GoError)) else pure a).events = []
      split <;> rfl)
  rw [h1, Run.bind_ok _ _ rfl, calls_append, h2, h3, h4]
  rfl

theorem show_dir_nonrec (g : Globals) (env : Env) (d : String) (hr : g.recursive = false)
    (hJ : ∀ name node, (name, node) ∈ (env.Tree d).children → node.isDir = true →
      env.Join [d, name] ≠ d) :
    ∀ p ∈ calls .show_file (show_dir g env d).events,
      Ext p = ".torrent" ∧
      (p = d ∨ ∃ name node, (name, node) ∈ (env.Tree d).children ∧ node.isDir = false ∧
        p = env.Join [d, name]) := by
  intro p hp
  have hp' : p ∈ calls .show_file (walk env (walker g env d) d (env.Tree d)).events := by
    rw [← show_dir_calls]
    exact hp
  revert hJ hp'
  cases env.Tree d with
  | file =>
    intro _ hp'
    rw [walk] at hp'
    obtain ⟨h1, h2, -, -⟩ := walker_calls g env d d _ _ p hp'
    exact ⟨h1 ▸ h2, Or.inl h1⟩
  | bad err =>
    intro _ hp'
    rw [walk, walker_none] at hp'
    exact absurd hp' (List.not_mem_nil _)
  | unreadable err =>
    intro _ hp'
    rw [walk] at hp'
    obtain ⟨-, -, h3, -⟩ := walker_calls g env d d _ _ p hp'
    exact Option.noConfusion h3
  | dir entries =>
    intro hJ hp'
    rw [walk_dir, Run.events_bind, calls_append] at hp'
    rcases List.mem_append.mp hp' with h | h
    · obtain ⟨h1, h2, -, -⟩ := walker_calls g env d d _ _ p h
      exact ⟨h1 ▸ h2, Or.inl h1⟩
    · cases hv : (walker g env d d (some true) none).val with
      | none =>
        rw [hv] at h
        exact absurd h (List.not_mem_nil _)
      | some err1 =>
        rw [hv] at h
        simp only at h
        split at h
        · exact absurd h (List.not_mem_nil _)
        · obtain ⟨n, x, hm, h1, h2, h3⟩ := walkEntries_nonrec g env d hr entries hJ p h
          exact ⟨h3, Or.inr ⟨n, x, hm, h1, h2⟩⟩

theorem Run.bind_some {α β : Type} (x : Run α) (f : α → Run β) (a : α) (h : x.val = some a) :
    (x >>= f) = ⟨x.events ++ (f a).events, (f a).val⟩ := by
  simp [Run.bind_def, Run.andThen, h]

theorem walker_rec_run (g : Globals) (env : Env) (d path : String) (b : Bool)
    (hr : g.recursive = true)
    (hok : Ext path = ".torrent" → (show_file g env path).val = some ()) :
    (walker g env d path (some b) none).val = some none ∧
    calls .show_file (walker g env d path (some b) none).events
      = [path].filter (fun p => Ext p = ".torrent") := by
  rw [walker_some]
  have h1 : ¬ (b && !g.recursive && decide (path ≠ d)) = true := by simp [hr]
  rw [if_neg h1, if_neg (by simp)]
  by_cases h3 : Ext path = ".torrent"
  · rw [if_pos h3, Run.bind_ok _ _ (hok h3), calls_append, calls_show_file_self]
    simp [h3, calls_nil]
  · rw [if_neg h3]
    simp [h3, calls_nil]

theorem walkEntries_cont_none (env : Env)
    (fn : String → Option Bool → Option String → Run (Option GoError))
    (path : String) (node : Node) (rest : Entries) :
    (match node with
      | .bad _ =>
        if (none : Option GoError) ≠ none ∧ (none : Option GoError) ≠ some .SkipDir
          then pure none
        else walkEntries env fn path rest
      | _ =>
        if (none : Option GoError) ≠ none ∧
            (!node.isDir ∨ (none : Option GoError) ≠ some .SkipDir) then pure none
        else walkEntries env fn path rest) = walkEntries env fn path rest := by
  cases node <;> simp

mutual
theorem walk_rec (g : Globals) (env : Env) (d : String) (hr : g.recursive = true) :
    (node : Node) → (path : String) → node.clean = true →
    (∀ p ∈ node.paths env path, Ext p = ".torrent" → (show_file g env p).val = some ()) →
    (walk env (walker g env d) path node).val = some none ∧
    calls .show_file (walk env (walker g env d) path node).events
      = (node.paths env path).filter (fun p => Ext p = ".torrent")
  | .file, path, _, hok => by
    rw [walk]
    exact walker_rec_run g env d path false hr (hok path (by simp [Node.paths]))
  | .bad _, _, hc, _ => by simp [Node.clean] at hc
  | .unreadable _, _, hc, _ => by simp [Node.clean] at hc
  | .dir entries, path, hc, hok => by
    obtain ⟨w1, w2⟩ := walker_rec_run g env d path true hr (hok path (by simp [Node.paths]))
    obtain ⟨e1, e2⟩ := walkEntries_rec g env d hr entries path
      (by simpa [Node.clean] using hc)
      (fun p hp => hok p (by simp [Node.paths, hp]))
    rw [walk_dir, Run.bind_some _ _ none w1]
    simp only [ne_eq, not_true_eq_false, if_false, calls_append, w2, e1, e2, Node.paths,
      List.filter_cons, List.filter_nil]
    refine ⟨trivial, ?_⟩
    by_cases h3 : Ext path = ".torrent" <;> simp [h3]
theorem walkEntries_rec (g : Globals) (env : Env) (d : String) (hr : g.recursive = true) :
    (es : Entries) → (path : String) → es.clean = true →
    (∀ p ∈ es.paths env path, Ext p = ".torrent" → (show_file g env p).val = some ()) →
    (walkEntries env (walker g env d) path es).val = some none ∧
    calls .show_file (walkEntries env (walker g env d) path es).events
      = (es.paths env path).filter (fun p => Ext p = ".torrent")
  | .nil, path, _, _ => by
    rw [walkEntries]
    exact ⟨rfl, rfl⟩
  | .cons name node rest, path, hc, hok => by
    have hc' : node.clean = true ∧ rest.clean = true := by simpa [Entries.clean] using hc
    obtain ⟨n1, n2⟩ := walk_rec g env d hr node (env.Join [path, name]) hc'.1
      (fun p hp => hok p (by simp [Entries.paths, hp]))
    obtain ⟨r1, r2⟩ := walkEntries_rec g env d hr rest path hc'.2
      (fun p hp => hok p (by simp [Entries.paths, hp]))
    rw [walkEntries_cons, Run.bind_some _ _ none n1, walkEntries_cont_none]
    simp only [calls_append, n2, r1, r2, Entries.paths, List.filter_append]
    exact ⟨trivial, trivial⟩
end

theorem upto_panic_all (g : Globals) (env : Env) :
    ∀ L : List String, (∀ p ∈ L, (show_file g env p).val = some ()) → upto_panic g env L = L
  | [], _ => rfl
  | p :: ps, h => by
    have hp : (show_file g env p).val ≠ none := by
      rw [h p (List.mem_cons_self _ _)]
      exact fun h => Option.noConfusion h
    rw [upto_panic, if_neg hp,
      upto_panic_all g env ps (fun q hq => h q (List.mem_cons_of_mem _ hq))]

theorem upto_panic_append_ok (g : Globals) (env : Env) (L2 : List String) :
    ∀ L1 : List String, (∀ p ∈ L1, (show_file g env p).val = some ()) →
      upto_panic g env (L1 ++ L2) = L1 ++ upto_panic g env L2
  | [], _ => rfl
  | p :: ps, h => by
    have hp : (show_file g env p).val ≠ none := by
      rw [h p (List.mem_cons_self _ _)]
      exact fun h => Option.noConfusion h
    rw [List.cons_append, upto_panic, if_neg hp,
      upto_panic_append_ok g env L2 ps (fun q hq => h q (List.mem_cons_of_mem _ hq))]
    rfl

theorem upto_panic_append_fault (g : Globals) (env : Env) (L2 : List String) :
    ∀ L1 : List String, (∃ p ∈ L1, (show_file g env p).val = none) →
      upto_panic g env (L1 ++ L2) = upto_panic g env L1
  | [], h => by
    obtain ⟨p, hp, -⟩ := h
    exact absurd hp (List.not_mem_nil _)
  | p :: ps, h => by
    rw [List.cons_append, upto_panic, upto_panic]
    by_cases hp : (show_file g env p).val = none
    · rw [if_pos hp, if_pos hp]
    · rw [if_neg hp, if_neg hp]
      obtain ⟨q, hq, hv⟩ := h
      rcases List.mem_cons.mp hq with rfl | hq
      · exact absurd hv hp
      · rw [upto_panic_append_fault g env L2 ps ⟨q, hq, hv⟩]

theorem Tracks_nil (g : Globals) (env : Env) (x : Run (Option GoError))
    (hv : x.val = some none) (hc : calls .show_file x.events = []) : Tracks g env x [] :=
  ⟨hc, Or.inl ⟨hv, fun _ h => absurd h (List.not_mem_nil _)⟩⟩

theorem Tracks_bind (g : Globals) (env : Env) (x : Run (Option GoError))
    (f : Option GoError → Run (Option GoError)) (L1 L2 : List String)
    (h1 : Tracks g env x L1) (h2 : Tracks g env (f none) L2) :
    Tracks g env (x >>= f) (L1 ++ L2) := by
  obtain ⟨c1, v1⟩ := h1
  obtain ⟨c2, v2⟩ := h2
  rcases v1 with ⟨xv, ok1⟩ | ⟨xv, bad1⟩
  · rw [Run.bind_some _ _ none xv]
    refine ⟨?_, ?_⟩
    · rw [calls_append, c1, c2, upto_panic_all g env L1 ok1,
        upto_panic_append_ok g env L2 L1 ok1]
    · rcases v2 with ⟨yv, ok2⟩ | ⟨yv, bad2⟩
      · refine Or.inl ⟨yv, fun p hp => ?_⟩
        rcases List.mem_append.mp hp with h | h
        · exact ok1 p h
        · exact ok2 p h
      · obtain ⟨p, hp, hv⟩ := bad2
        exact Or.inr ⟨yv, p, List.mem_append_right _ hp, hv⟩
  · have hx : (x >>= f) = ⟨x.events, none⟩ := by
      simp [Run.bind_def, Run.andThen, xv]
    rw [hx]
    refine ⟨?_, Or.inr ⟨rfl, ?_⟩⟩
    · show calls .show_file x.events = _
      rw [c1, upto_panic_append_fault g env L2 L1 bad1]
    · obtain ⟨p, hp, hv⟩ := bad1
      exact ⟨p, List.mem_append_left _ hp, hv⟩

theorem Tracks_walker (g : Globals) (env : Env) (d path : String) (b : Bool)
    (hr : g.recursive = true) :
    Tracks g env (walker g env d path (some b) none)
      ([path].filter (fun p => Ext p = ".torrent")) := by
  rw [walker_some]
  have h1 : ¬ (b && !g.recursive && decide (path ≠ d)) = true := by simp [hr]
  rw [if_neg h1, if_neg (by simp)]
  by_cases h3 : Ext path = ".torrent"
  · rw [if_pos h3]
    have hL : [path].filter (fun p => Ext p = ".torrent") = [path] := by simp [h3]
    rw [hL]
    refine ⟨?_, ?_⟩
    · rw [calls_show_file_then, upto_panic, upto_panic]
      split <;> rfl
    · cases hv : (show_file g env path).val with
      | none =>
        refine Or.inr ⟨?_, path, List.mem_singleton_self _, hv⟩
        simp [Run.bind_def, Run.andThen, hv]
      | some u =>
        refine Or.inl ⟨?_, fun p hp => ?_⟩
        · simp [Run.bind_def, Run.andThen, hv]
        · rw [List.mem_singleton.mp hp, hv]
  · rw [if_neg h3]
    have hL : [path].filter (fun p => Ext p = ".torrent") = [] := by simp [h3]
    rw [hL]
    exact Tracks_nil g env _ rfl rfl

theorem walker_unreadable (g : Globals) (env : Env) (d path err : String)
    (hr : g.recursive = true) :
    walker g env d path (some true) (some err) = pure none := by
  rw [walker_some]
  have h1 : ¬ (true && !g.recursive && decide (path ≠ d)) = true := by simp [hr]
  rw [if_neg h1, if_pos (by simp)]

mutual
theorem walk_tracks (g : Globals) (env : Env) (d : String) (hr : g.recursive = true) :
    (node : Node) → (path : String) → node.stat_ok = true →
    Tracks g env (walk env (walker g env d) path node)
      ((node.good_paths env path).filter (fun p => Ext p = ".torrent"))
  | .file, path, _ => by
    rw [walk]
    exact Tracks_walker g env d path false hr
  | .bad _, _, hc => by simp [Node.stat_ok] at hc
  | .unreadable err, path, _ => by
    rw [walk, walker_unreadable g env d path err hr]
    exact Tracks_nil g env _ rfl rfl
  | .dir entries, path, hc => by
    have hw := Tracks_walker g env d path true hr
    have he := walkEntries_tracks g env d hr entries path (by simpa [Node.stat_ok] using hc)
    rw [walk_dir]
    have hL : (Node.good_paths env path (.dir entries)).filter (fun p => Ext p = ".torrent")
        = [path].filter (fun p => Ext p = ".torrent")
          ++ (entries.good_paths env path).filter (fun p => Ext p = ".torrent") := by
      rw [Node.good_paths, ← List.filter_append]
      rfl
    rw [hL]
    refine Tracks_bind g env _ _ _ _ hw ?_
    show Tracks g env (if (none : Option GoError) ≠ none then pure none
      else walkEntries env (walker g env d) path entries) _
    rw [if_neg (by simp)]
    exact he
theorem walkEntries_tracks (g : Globals) (env : Env) (d : String) (hr : g.recursive = true) :
    (es : Entries) → (path : String) → es.stat_ok = true →
    Tracks g env (walkEntries env (walker g env d) path es)
      ((es.good_paths env path).filter (fun p => Ext p = ".torrent"))
  | .nil, path, _ => by
    rw [walkEntries]
    exact Tracks_nil g env _ rfl rfl
  | .cons name node rest, path, hc => by
    have hc' : node.stat_ok = true ∧ rest.stat_ok = true := by
      simpa [Entries.stat_ok] using hc
    have hn := walk_tracks g env d hr node (env.Join [path, name]) hc'.1
    have hrest := walkEntries_tracks g env d hr rest path hc'.2
    rw [walkEntries_cons, Entries.good_paths, List.filter_append]
    refine Tracks_bind g env _ _ _ _ hn ?_
    rw [walkEntries_cont_none]
    exact hrest
end

mutual
theorem node_stat_ok_of_clean : (node : Node) → node.clean = true → node.stat_ok = true
  | .file, _ => rfl
  | .bad _, h => by simp [Node.clean] at h
  | .unreadable _, _ => rfl
  | .dir entries, h => by
    rw [Node.stat_ok]
    exact entries_stat_ok_of_clean entries (by simpa [Node.clean] using h)
theorem entries_stat_ok_of_clean : (es : Entries) → es.clean = true → es.stat_ok = true
  | .nil, _ => rfl
  | .cons _ node rest, h => by
    have h' : node.clean = true ∧ rest.clean = true := by simpa [Entries.clean] using h
    rw [Entries.stat_ok, node_stat_ok_of_clean node h'.1, entries_stat_ok_of_clean rest h'.2]
    rfl
end

mutual
theorem node_good_paths_of_clean (env : Env) :
    (node : Node) → (path : String) → node.clean = true →
    node.good_paths env path = node.paths env path
  | .file, _, _ => rfl
  | .bad _, _, h => by simp [Node.clean] at h
  | .unreadable _, _, h => by simp [Node.clean] at h
  | .dir entries, path, h => by
    rw [Node.good_paths, Node.paths,
      entries_good_paths_of_clean env entries path (by simpa [Node.clean] using h)]
theorem entries_good_paths_of_clean (env : Env) :
    (es : Entries) → (path : String) → es.clean = true →
    es.good_paths env path = es.paths env path
  | .nil, _, _ => rfl
  | .cons name node rest, path, h => by
    have h' : node.clean = true ∧ rest.clean = true := by simpa [Entries.clean] using h
    rw [Entries.good_paths, Entries.paths,
      node_good_paths_of_clean env node _ h'.1, entries_good_paths_of_clean env rest path h'.2]
end

theorem show_dir_val (g : Globals) (env : Env) (d : String) :
    ((show_dir g env d).val = some () ↔
      (walk env (walker g env d) d (env.Tree d)).val ≠ none) := by
  have h1 : show_dir g env d =
      (enter .show_dir d >>= fun _ =>
        (Walk env d (walker g env d) >>= fun _ => (pure () : Run Unit))) := rfl
  have h3 : Walk env d (walker g env d) =
      (walk env (walker g env d) d (env.Tree d) >>= fun err =>
        if err = some .SkipDir then (pure none : Run (Option GoError)) else pure err) := rfl
  rw [h1, Run.bind_ok _ _ rfl, h3]
  cases hv : (walk env (walker g env d) d (env.Tree d)).val with
  | none => simp [Run.bind_def, Run.andThen, hv]
  | some err =>
    by_cases he : err = some .SkipDir
    · simp [Run.bind_def, Run.andThen, hv, he]
    · simp [Run.bind_def, Run.andThen, hv, he]

/-- C9, counterexample. With `-r`, three directories `d` in which an entry
with extension `.torrent` is not passed to `show_file`. In basic mode, where
`a.torrent` and `b.torrent` are regular files whose metadata names no
tracker, every `Lstat` and every listing succeeds, yet `show_basic` panics on
`d/a.torrent` and the walk ends there: `d/b.torrent` is never passed. Where
`a.torrent` is a directory that cannot be listed, the callback skips it as a
bad file and goes on to `d/b.torrent`. Where `Lstat` fails on the entry `a`,
the callback panics on it and the `b.torrent` after it is never passed. -/
theorem show_dir_misses_torrent_entries :
    ((pair_tree.paths trackerlessEnv "d").filter (fun p => Ext p = ".torrent")
        = ["d/a.torrent", "d/b.torrent"] ∧
      pair_tree.clean = true ∧
      calls .show_file (show_dir (plain .view_basic true) trackerlessEnv "d").events
        = ["d/a.torrent"] ∧
      (show_dir (plain .view_basic true) trackerlessEnv "d").val = none) ∧
    ((unlistable_tree.paths unlistableEnv "d").filter (fun p => Ext p = ".torrent")
        = ["d/a.torrent", "d/b.torrent"] ∧
      unlistable_tree.stat_ok = true ∧
      calls .show_file (show_dir (plain .view_short true) unlistableEnv "d").events
        = ["d/b.torrent"] ∧
      (show_dir (plain .view_short true) unlistableEnv "d").val = some ()) ∧
    ((unstatable_tree.paths unstatableEnv "d").filter (fun p => Ext p = ".torrent")
        = ["d/b.torrent"] ∧
      unstatable_tree.stat_ok = false ∧
      calls .show_file (show_dir (plain .view_short true) unstatableEnv "d").events = [] ∧
      (show_dir (plain .view_short true) unstatableEnv "d").val = none) := by
  decide

/-- C9, amended. Without `-r` the callback of `show_dir` answers `SkipDir`,
doing nothing else, for every directory other than the root, and every path
passed to `show_file` is the root or a direct entry of the root that is not a
directory (provided no subdirectory of the root is spelled like the root
itself). With `-r`, on a tree in which every `Lstat` succeeds, the paths
passed to `show_file` are, in walk order and at any depth, the entries with
extension `.torrent` other than directories that cannot be listed, up to and
including the first one on which `show_file` panics, and `show_dir` returns
exactly when there is no such panic; there is none outside basic mode, and on
a tree without unreadable entries the paths passed are then exactly the
entries of the whole tree whose extension is `.torrent`.  For the tree with
`a.torrent` and `sub1/sub2/x.torrent` the nested file is not passed without
`-r` and is passed with it. -/
theorem show_dir_recursion (g : Globals) (env : Env) (d : String) :
    (g.recursive = false → ∀ path err, path ≠ d →
      walker g env d path (some true) err = pure (some .SkipDir)) ∧
    (g.recursive = false →
      (∀ e ∈ (env.Tree d).children, e.2.isDir = true → env.Join [d, e.1] ≠ d) →
      ∀ p ∈ calls .show_file (show_dir g env d).events,
        p = d ∨ ∃ e ∈ (env.Tree d).children, e.2.isDir = false ∧ p = env.Join [d, e.1]) ∧
    (g.recursive = true → (env.Tree d).stat_ok = true →
      calls .show_file (show_dir g env d).events
        = upto_panic g env
            (((env.Tree d).good_paths env d).filter (fun p => Ext p = ".torrent")) ∧
      ((show_dir g env d).val = some () ↔
        ∀ p ∈ ((env.Tree d).good_paths env d).filter (fun p => Ext p = ".torrent"),
          (show_file g env p).val = some ())) ∧
    (∀ L : List String,
      (g.mode ≠ .view_basic ∨ ∀ p ∈ L, (show_file g env p).val = some ()) →
      upto_panic g env L = L) ∧
    ((env.Tree d).clean = true → (env.Tree d).stat_ok = true ∧
      (env.Tree d).good_paths env d = (env.Tree d).paths env d) ∧
    (g.recursive = true → (env.Tree d).clean = true →
      (g.mode ≠ .view_basic ∨
        ∀ p ∈ (env.Tree d).paths env d, Ext p = ".torrent" →
          (show_file g env p).val = some ()) →
      calls .show_file (show_dir g env d).events
        = ((env.Tree d).paths env d).filter (fun p => Ext p = ".torrent")) ∧
    calls .show_file (show_dir (plain .view_short false) nestedEnv "d").events
      = ["d/a.torrent"] ∧
    calls .show_file (show_dir (plain .view_short true) nestedEnv "d").events
      = ["d/a.torrent", "d/sub1/sub2/x.torrent"] := by
  refine ⟨?_, ?_, ?_, ?_, ?_, ?_, by decide, by decide⟩
  · intro hr path err hp
    exact walker_skip g env d path err hr hp
  · intro hr hJ p hp
    obtain ⟨-, h⟩ := show_dir_nonrec g env d hr (fun name node hm => hJ (name, node) hm) p hp
    rcases h with h | ⟨name, node, hm, h1, h2⟩
    · exact Or.inl h
    · exact Or.inr ⟨(name, node), hm, h1, h2⟩
  · intro hr hs
    obtain ⟨hc, hv⟩ := walk_tracks g env d hr (env.Tree d) d hs
    refine ⟨by rw [show_dir_calls]; exact hc, ?_⟩
    rw [show_dir_val]
    rcases hv with ⟨xv, ok⟩ | ⟨xv, p, hp, hbad⟩
    · rw [xv]
      exact ⟨fun _ => ok, fun _ h => Option.noConfusion h⟩
    · rw [xv]
      refine ⟨fun h => absurd rfl h, fun h => ?_⟩
      rw [h p hp] at hbad
      exact Option.noConfusion hbad
  · intro L hL
    apply upto_panic_all
    rcases hL with hm | hL
    · exact fun p _ => show_file_val g env p hm
    · exact hL
  · intro hc
    exact ⟨node_stat_ok_of_clean _ hc, node_good_paths_of_clean env _ d hc⟩
  · intro hr hc hok
    rw [show_dir_calls]
    refine (walk_rec g env d hr (env.Tree d) d hc ?_).2
    rcases hok with hm | hok
    · exact fun p _ _ => show_file_val g env p hm
    · exact hok

/-- Witness for C9: without `-r` the directory `d/sub1` of the nested tree is
skipped and only direct entries are passed; with `-r` the nested tree is
passed whole, the directory with an unlistable `a.torrent` passes
`d/b.torrent` only, and in basic mode the walk over two torrents without a
tracker ends at the first. -/
theorem show_dir_recursion_nested :
    walker (plain .view_short false) nestedEnv "d" "d/sub1" (some true) none
      = pure (some .SkipDir) ∧
    (∀ p ∈ calls .show_file (show_dir (plain .view_short false) nestedEnv "d").events,
      p = "d" ∨ ∃ e ∈ (nestedEnv.Tree "d").children,
        e.2.isDir = false ∧ p = nestedEnv.Join ["d", e.1]) ∧
    calls .show_file (show_dir (plain .view_short true) nestedEnv "d").events
      = (nested_tree.paths nestedEnv "d").filter (fun p => Ext p = ".torrent") ∧
    calls .show_file (show_dir (plain .view_short true) unlistableEnv "d").events
      = ["d/b.torrent"] ∧
    calls .show_file (show_dir (plain .view_basic true) trackerlessEnv "d").events
      = ["d/a.torrent"] ∧
    ((show_dir (plain .view_short true) unlistableEnv "d").val = some () ↔
      ∀ p ∈ ((unlistableEnv.Tree "d").good_paths unlistableEnv "d").filter
          (fun p => Ext p = ".torrent"),
        (show_file (plain .view_short true) unlistableEnv p).val = some ()) :=
  ⟨(show_dir_recursion (plain .view_short false) nestedEnv "d").1 rfl "d/sub1" none
      (by decide),
   (show_dir_recursion (plain .view_short false) nestedEnv "d").2.1 rfl (by decide),
   (show_dir_recursion (plain .view_short true) nestedEnv "d").2.2.2.2.2.1 rfl (by decide)
      (Or.inl (by decide)),
   ((show_dir_recursion (plain .view_short true) unlistableEnv "d").2.2.1 rfl
      (by decide)).1.trans (by decide),
   ((show_dir_recursion (plain .view_basic true) trackerlessEnv "d").2.2.1 rfl
      (by decide)).1.trans (by decide),
   ((show_dir_recursion (plain .view_short true) unlistableEnv "d").2.2.1 rfl
      (by decide)).2⟩

/-- C10 fails on a directory whose name ends in `.torrent`: with `-r` the
directory `d/x.torrent` is passed to `show_file`, which reports a decode
error for it, and without `-r` a root directory `d.torrent` is passed itself;
the comparison of the extension is exact (`a.TORRENT`, `a.torrent.bak` and
`a.txt` do not match). -/
theorem show_dir_passes_directory :
    (torrent_dir_tree.children.map fun e => (e.1, e.2.isDir)) = [("x.torrent", true)] ∧
    calls .show_file (show_dir (plain .view_basic true) torrentDirEnv "d").events
      = ["d/x.torrent"] ∧
    text torrentDirEnv (show_dir (plain .view_basic true) torrentDirEnv "d").events
      = "d/x.torrent (error: read d/x.torrent: is a directory)\n" ∧
    torrent_dir_tree.isDir = true ∧
    calls .show_file (show_dir (plain .view_basic false) torrentDirEnv "d.torrent").events
      = ["d.torrent"] ∧
    Ext "a.TORRENT" ≠ ".torrent" ∧ Ext "a.torrent.bak" ≠ ".torrent" ∧
    Ext "a.txt" ≠ ".torrent" := by
  decide

theorem four_spaces_data (n : Nat) : (four_spaces n).data = List.replicate (4 * n) ' ' := by
  unfold four_spaces
  rw [String.data_join]
  induction n with
  | zero => rfl
  | succ n ih =>
    rw [List.replicate_succ, List.map_cons, List.flatten_cons, ih]
    have : 4 * (n + 1) = 4 + 4 * n := by ring
    rw [this, List.replicate_add]
    rfl

theorem Repeat_four_spaces (n : Int) :
    Repeat "    " n =
      if n < 0 ∨ 2 ^ 61 ≤ n then none else some (four_spaces n.toNat) := by
  have h4 : (("    " : String).utf8ByteSize : Int) = 4 := by decide
  unfold Repeat four_spaces
  rw [h4]
  by_cases h : n < 0 ∨ (2 : Int) ^ 61 ≤ n
  · rw [if_pos h, if_pos (by omega)]
  · rw [if_neg h, if_neg (by omega)]

/-- C16, counterexample. At `n = 2^61`, a non-negative `int`, `tabs n` is not
a string of `4 * n` spaces: the table does not reach that depth and
`strings.Repeat` panics, the length `2^63` being no `int`. -/
theorem tabs_faults_on_overflow :
    (0 : Int) ≤ 2 ^ 61 ∧ (2 : Int) ^ 61 < 2 ^ 63 ∧ tabs (2 ^ 61) = none ∧
    (call_tabs (2 ^ 61)).val = none := by
  decide

/-- C16, amended. For every `n` with `0 ≤ n < 2^61`, `tabs n` returns the
four-space string repeated `n` times, a string of `4 * n` spaces: the entries
of `tabstable` used for `n = 0, ..., 6` are these repetitions, as is the
value computed by `strings.Repeat` from 7 on; for every `n < 0`, `tabs n`
returns the empty string. The bound is exact: `tabs n` panics exactly from
`2^61` on. -/
theorem tabs_is_repetition (n : Int) :
    (0 ≤ n → n < 2 ^ 61 →
      ∃ s, tabs n = some s ∧ s = four_spaces n.toNat ∧
        s.data = List.replicate (4 * n.toNat) ' ' ∧
        s.length = 4 * n.toNat) ∧
    (n < 0 → tabs n = some "") ∧
    (∀ k : Nat, k < 7 → tabstable[k]? = some (four_spaces k)) ∧
    tabstable.length = 7 ∧
    (7 ≤ n → tabs n = Repeat "    " n) ∧
    (tabs n = none ↔ 2 ^ 61 ≤ n) := by
  have htab : ∀ k : Nat, k < 7 → tabstable[k]? = some (four_spaces k) := by
    intro k hk
    interval_cases k <;> decide
  have hlen : (tabstable.length : Int) = 7 := rfl
  have heq : 0 ≤ n → n < 2 ^ 61 → tabs n = some (four_spaces n.toNat) := by
    intro h0 hb
    unfold tabs
    rw [if_neg (by omega)]
    by_cases h7 : n < (tabstable.length : Int)
    · rw [if_pos h7]
      have hk : n.toNat < 7 := by omega
      rw [htab _ hk]
    · rw [if_neg h7, Repeat_four_spaces, if_neg (by omega)]
  have hrep : 7 ≤ n → tabs n = Repeat "    " n := by
    intro h7
    unfold tabs
    rw [if_neg (by omega), if_neg (by omega)]
  have hneg : n < 0 → tabs n = some "" := by
    intro hneg
    unfold tabs
    rw [if_pos hneg]
  refine ⟨fun h0 hb => ⟨_, heq h0 hb, rfl, four_spaces_data _, ?_⟩, hneg, htab, rfl, hrep, ?_⟩
  · show (four_spaces n.toNat).data.length = _
    rw [four_spaces_data, List.length_replicate]
  · constructor
    · intro hn
      by_contra hb
      by_cases h0 : 0 ≤ n
      · rw [heq h0 (by omega)] at hn
        exact Option.noConfusion hn
      · rw [hneg (by omega)] at hn
        exact Option.noConfusion hn
    · intro hb
      rw [hrep (by omega), Repeat_four_spaces, if_pos (Or.inr hb)]

/-- Witness for C16: depth 3 comes from the table, depth 9 is computed, and a
negative depth gives the empty string. -/
theorem tabs_is_repetition_sample :
    (0 : Int) ≤ 3 ∧ (3 : Int) < 2 ^ 61 ∧ (0 : Int) ≤ 9 ∧ (9 : Int) < 2 ^ 61 ∧
    (∃ s, tabs 3 = some s ∧ s = four_spaces (3 : Int).toNat ∧
      s.data = List.replicate (4 * (3 : Int).toNat) ' ' ∧
      s.length = 4 * (3 : Int).toNat) ∧
    (∃ s, tabs 9 = some s ∧ s = four_spaces (9 : Int).toNat ∧
      s.data = List.replicate (4 * (9 : Int).toNat) ' ' ∧
      s.length = 4 * (9 : Int).toNat) ∧
    tabs 9 = Repeat "    " 9 ∧
    tabs (-2) = some "" :=
  ⟨by decide, by decide, by decide, by decide,
   (tabs_is_repetition 3).1 (by decide) (by decide),
   (tabs_is_repetition 9).1 (by decide) (by decide),
   (tabs_is_repetition 9).2.2.2.2.1 (by decide),
   (tabs_is_repetition (-2)).2.1 (by decide)⟩

/-- C13. `show_basic` panics exactly when `AnnounceList` is empty or its first
group is empty, and then it has written the header and the `name` row only;
it completes exactly when the first group holds at least one URL. -/
theorem show_basic_faults_iff (g : Globals) (env : Env) (filename : String) (mi : MetaInfo) :
    ((show_basic g env filename mi).val = none ↔
      (mi.AnnounceList = [] ∨ ∃ groups, mi.AnnounceList = [] :: groups)) ∧
    ((show_basic g env filename mi).val = some () ↔
      ∃ url urls groups, mi.AnnounceList = (url :: urls) :: groups) ∧
    ((show_basic g env filename mi).val = none →
      outs (show_basic g env filename mi).events =
        [[.str g.colors.color_white_bold, .str filename, .str g.colors.color_none, .str "\n"],
         [.str g.colors.color_green_bold, .str "\tname\t", .str g.colors.color_none,
          .str g.colors.color_yellow, .str mi.Name, .str g.colors.color_none, .str "\n"]]) := by
  have hft : first_tracker mi = none ↔
      (mi.AnnounceList = [] ∨ ∃ groups, mi.AnnounceList = [] :: groups) := by
    unfold first_tracker
    cases h : mi.AnnounceList with
    | nil => simp
    | cons ag groups =>
      cases ag with
      | nil => simp
      | cons url urls => simp
  have hfs : (∃ url, first_tracker mi = some url) ↔
      ∃ url urls groups, mi.AnnounceList = (url :: urls) :: groups := by
    unfold first_tracker
    cases h : mi.AnnounceList with
    | nil => simp
    | cons ag groups =>
      cases ag with
      | nil => simp
      | cons url urls => simp
  cases hu : first_tracker mi with
  | none =>
    have hrun := show_basic_run_fault g env filename mi hu
    refine ⟨?_, ?_, ?_⟩
    · rw [hrun, ← hft]
      simp [hu]
    · rw [hrun, ← hfs]
      simp [hu]
    · intro _
      rw [hrun]
      rfl
  | some url =>
    have hrun := show_basic_run_ok g env filename mi url hu
    refine ⟨?_, ?_, ?_⟩
    · rw [hrun, ← hft]
      simp [hu]
    · rw [hrun, ← hfs]
      simp [hu]
    · intro h
      rw [hrun] at h
      exact absurd h (by simp)

/-- Witness for C13: with no announce group `show_basic` panics after the
`name` row. -/
theorem show_basic_faults_iff_sample :
    outs (show_basic (plain .view_basic false) ubuntuEnv "u.torrent" ubuntu_no_tracker).events =
      [[.str "", .str "u.torrent", .str "", .str "\n"],
       [.str "", .str "\tname\t", .str "", .str "", .str "ubuntu.iso", .str "", .str "\n"]] :=
  (show_basic_faults_iff (plain .view_basic false) ubuntuEnv "u.torrent"
    ubuntu_no_tracker).2.2 (by decide)

/-- C19. `show_short` is the same as the variant that always computes the size
with the summing loop: for every metadata the size operand is the
humanization of the sum of all `Length` values as a `uint64` (for one entry
the conversion of that entry's `Length`, for no entry the humanization of 0,
written with the word `files`). -/
theorem show_short_branches_agree (g : Globals) (env : Env) (filename : String)
    (mi : MetaInfo) :
    show_short g env filename mi = show_short_summing g env filename mi ∧
    uint64 (total_size_loop 0 mi.Files) = shown_total mi ∧
    (∀ f, uint64 (total_size_loop 0 [f]) = uint64 f.Length) ∧
    outs (show_short g env filename { mi with Files := [] }).events =
      [[.str g.colors.color_white_bold, .str filename, .str g.colors.color_none, .str "\n",
        .str "    ", .str g.colors.color_yellow, .str mi.Name, .str g.colors.color_none,
        .str " (", .str g.colors.color_cyan, .str (env.IBytes 0),
        .str g.colors.color_none, .str " in ", .int 0],
       [.str " files)\n"]] := by
  have hsum : uint64 (total_size_loop 0 mi.Files) = shown_total mi := by
    rw [uint64_total_size_loop, shown_total, Int.zero_add]
  have hone : ∀ f : FileInfo, uint64 (total_size_loop 0 [f]) = uint64 f.Length := by
    intro f
    rw [uint64_total_size_loop]
    simp
  refine ⟨?_, hsum, hone, ?_⟩
  · unfold show_short show_short_summing
    by_cases h : mi.Files.length = 1
    · obtain ⟨f, hf⟩ := List.length_eq_one.mp h
      rw [if_pos h, hf]
      simp only [index, List.getElem?_cons_zero, Run.pure_bind, hone f]
    · rw [if_neg h]
      rfl
  · rw [show_short_run]
    simp [outs, shown_total, uint64]

/-- C20. `show_short` and `show_long` complete for every metadata and write
their output, beginning with the header naming the file; for the metadata
with no announce group and no file entry `show_short` writes two calls and
`show_long` writes the sections `announce groups`, `created on`, `name` and
`files`. -/
theorem show_short_long_never_fault (g : Globals) (env : Env) (filename : String)
    (mi : MetaInfo) :
    (show_short g env filename mi).val = some () ∧
    (show_long g env filename mi).val = some () ∧
    (outs (show_short g env filename mi).events).length = 2 ∧
    (outs (show_long g env filename mi).events).head? =
      some [.str g.colors.color_white_bold, .str filename, .str g.colors.color_none,
        .str "\n"] ∧
    (show_short g env filename empty_metainfo).val = some () ∧
    (show_long g env filename empty_metainfo).val = some () ∧
    sections (show_long g env filename empty_metainfo).events =
      ["announce groups", "created on", "name", "files"] ∧
    (show_long g env filename { mi with AnnounceList := [[]] }).val = some () := by
  refine ⟨?_, ?_, ?_, ?_, ?_, ?_, ?_, ?_⟩
  · rw [show_short_run]
  · rw [show_long_run]
  · rw [show_short_run]
    rfl
  · rw [show_long_run]
    rfl
  · rw [show_short_run]
  · rw [show_long_run]
  · rw [sections_show_long]
    rfl
  · rw [show_long_run]

/-! ## Events of a walk -/

theorem mem_calls (fn : Fn) (name : String) (es : List Event) :
    name ∈ calls fn es ↔ Event.call fn name ∈ es := by
  unfold calls
  rw [List.mem_filterMap]
  constructor
  · rintro ⟨e, he, h⟩
    cases e with
    | out args => simp at h
    | call g n =>
      by_cases hg : g = fn
      · simp [hg] at h
        subst hg
        subst h
        exact he
      · simp [hg] at h
  · intro h
    exact ⟨_, h, by simp⟩

theorem events_bind_mem {α β : Type} (x : Run α) (f : α → Run β) (e : Event)
    (h : e ∈ (x >>= f).events) : e ∈ x.events ∨ ∃ a, x.val = some a ∧ e ∈ (f a).events := by
  rw [Run.events_bind] at h
  rcases List.mem_append.mp h with h | h
  · exact Or.inl h
  · cases hv : x.val with
    | none =>
      rw [hv] at h
      exact absurd h (List.not_mem_nil _)
    | some a =>
      rw [hv] at h
      exact Or.inr ⟨a, rfl, h⟩

theorem walker_events (g : Globals) (env : Env) (d path : String) (info : Option Bool)
    (err : Option String) :
    ∀ e ∈ (walker g env d path info err).events,
      Ext path = ".torrent" ∧ e ∈ (show_file g env path).events := by
  intro e he
  cases info with
  | none =>
    rw [walker_none] at he
    exact absurd he (List.not_mem_nil _)
  | some b =>
    rw [walker_some] at he
    split at he
    · exact absurd he (List.not_mem_nil _)
    · split at he
      · exact absurd he (List.not_mem_nil _)
      · split at he
        · rename_i h3
          rcases events_bind_mem _ _ e he with h | ⟨a, -, h⟩
          · exact ⟨h3, h⟩
          · exact absurd h (List.not_mem_nil _)
        · exact absurd he (List.not_mem_nil _)

theorem walkEntries_cont_events (env : Env)
    (fn : String → Option Bool → Option String → Run (Option GoError))
    (path : String) (node : Node) (rest : Entries) (err : Option GoError) (e : Event)
    (he : e ∈
      (match node with
        | .bad _ =>
          if err ≠ none ∧ err ≠ some .SkipDir then pure err
          else walkEntries env fn path rest
        | _ =>
          if err ≠ none ∧ (!node.isDir ∨ err ≠ some .SkipDir) then pure err
          else walkEntries env fn path rest).events) :
    e ∈ (walkEntries env fn path rest).events := by
  cases node <;> simp only at he <;> split at he <;>
    first
      | exact he
      | exact absurd he (List.not_mem_nil _)

mutual
theorem walk_events (g : Globals) (env : Env) (d : String) :
    (node : Node) → (path : String) →
    ∀ e ∈ (walk env (walker g env d) path node).events,
      ∃ p ∈ node.paths env path, Ext p = ".torrent" ∧ e ∈ (show_file g env p).events
  | .file, path => by
    intro e he
    rw [walk] at he
    exact ⟨path, by simp [Node.paths], walker_events g env d path _ _ e he⟩
  | .bad _, path => by
    intro e he
    rw [walk] at he
    exact ⟨path, by simp [Node.paths], walker_events g env d path _ _ e he⟩
  | .unreadable _, path => by
    intro e he
    rw [walk] at he
    exact ⟨path, by simp [Node.paths], walker_events g env d path _ _ e he⟩
  | .dir entries, path => by
    intro e he
    rw [walk_dir] at he
    rcases events_bind_mem _ _ e he with h | ⟨err1, -, h⟩
    · exact ⟨path, by simp [Node.paths], walker_events g env d path _ _ e h⟩
    · split at h
      · exact absurd h (List.not_mem_nil _)
      · obtain ⟨p, hp, h1, h2⟩ := walkEntries_events g env d entries path e h
        exact ⟨p, by simp [Node.paths, hp], h1, h2⟩
theorem walkEntries_events (g : Globals) (env : Env) (d : String) :
    (es : Entries) → (path : String) →
    ∀ e ∈ (walkEntries env (walker g env d) path es).events,
      ∃ p ∈ es.paths env path, Ext p = ".torrent" ∧ e ∈ (show_file g env p).events
  | .nil, path => by
    intro e he
    rw [walkEntries] at he
    exact absurd he (List.not_mem_nil _)
  | .cons name node rest, path => by
    intro e he
    rw [walkEntries_cons] at he
    rcases events_bind_mem _ _ e he with h | ⟨err, -, h⟩
    · obtain ⟨p, hp, h1, h2⟩ := walk_events g env d node (env.Join [path, name]) e h
      exact ⟨p, by simp [Entries.paths, hp], h1, h2⟩
    · have h' := walkEntries_cont_events env _ path node rest err e h
      obtain ⟨p, hp, h1, h2⟩ := walkEntries_events g env d rest path e h'
      exact ⟨p, by simp [Entries.paths, hp], h1, h2⟩
end

theorem show_dir_events (g : Globals) (env : Env) (d : String) :
    ∀ e ∈ (show_dir g env d).events,
      e = .call .show_dir d ∨
      ∃ p ∈ (env.Tree d).paths env d, Ext p = ".torrent" ∧ e ∈ (show_file g env p).events := by
  intro e he
  have h1 : show_dir g env d =
      (enter .show_dir d >>= fun _ =>
        (Walk env d (walker g env d) >>= fun _ => (pure () : Run Unit))) := rfl
  have h3 : Walk env d (walker g env d) =
      (walk env (walker g env d) d (env.Tree d) >>= fun err =>
        if err = some .SkipDir then (pure none : Run (Option GoError)) else pure err) := rfl
  rw [h1] at he
  rcases events_bind_mem _ _ e he with h | ⟨_, -, h⟩
  · left
    simpa using h
  · right
    rcases events_bind_mem _ _ e h with h | ⟨_, -, h⟩
    · rw [h3] at h
      rcases events_bind_mem _ _ e h with h | ⟨err, -, h⟩
      · exact walk_events g env d (env.Tree d) d e h
      · split at h <;> exact absurd h (List.not_mem_nil _)
    · exact absurd h (List.not_mem_nil _)

/-! ## Each entry is visited at most once -/

theorem walker_calls_sublist (g : Globals) (env : Env) (d path : String) (info : Option Bool)
    (err : Option String) :
    (calls .show_file (walker g env d path info err).events).Sublist
      ([path].filter (fun p => Ext p = ".torrent")) := by
  cases info with
  | none =>
    rw [walker_none]
    exact List.nil_sublist _
  | some b =>
    rw [walker_some]
    split
    · exact List.nil_sublist _
    · split
      · exact List.nil_sublist _
      · split
        · rename_i h3
          rw [calls_show_file_then]
          simp [h3]
        · exact List.nil_sublist _

theorem walkEntries_cont_sublist (env : Env)
    (fn : String → Option Bool → Option String → Run (Option GoError))
    (path : String) (node : Node) (rest : Entries) (err : Option GoError) (l : List String)
    (h : (calls .show_file (walkEntries env fn path rest).events).Sublist l) :
    (calls .show_file
      (match node with
        | .bad _ =>
          if err ≠ none ∧ err ≠ some .SkipDir then pure err
          else walkEntries env fn path rest
        | _ =>
          if err ≠ none ∧ (!node.isDir ∨ err ≠ some .SkipDir) then pure err
          else walkEntries env fn path rest).events).Sublist l := by
  cases node <;> simp only <;> split <;>
    first
      | exact h
      | exact List.nil_sublist _

theorem calls_bind_sublist {α β : Type} (fn : Fn) (x : Run α) (f : α → Run β)
    (l1 l2 : List String) (h1 : (calls fn x.events).Sublist l1)
    (h2 : ∀ a, (calls fn (f a).events).Sublist l2) :
    (calls fn (x >>= f).events).Sublist (l1 ++ l2) := by
  rw [Run.events_bind, calls_append]
  apply List.Sublist.append h1
  cases x.val with
  | none => exact List.nil_sublist _
  | some a => exact h2 a

mutual
theorem walk_calls_sublist (g : Globals) (env : Env) (d : String) :
    (node : Node) → (path : String) →
    (calls .show_file (walk env (walker g env d) path node).events).Sublist
      ((node.paths env path).filter (fun p => Ext p = ".torrent"))
  | .file, path => by
    rw [walk]
    exact walker_calls_sublist g env d path _ _
  | .bad _, path => by
    rw [walk]
    exact walker_calls_sublist g env d path _ _
  | .unreadable _, path => by
    rw [walk]
    exact walker_calls_sublist g env d path _ _
  | .dir entries, path => by
    rw [walk_dir]
    have h := calls_bind_sublist .show_file (walker g env d path (some true) none)
      (fun err1 => if err1 ≠ none then (pure err1 : Run (Option GoError))
        else walkEntries env (walker g env d) path entries)
      ([path].filter (fun p => Ext p = ".torrent"))
      ((entries.paths env path).filter (fun p => Ext p = ".torrent"))
      (walker_calls_sublist g env d path _ _)
      (fun err1 => by
        show (calls .show_file (if err1 ≠ none then (pure err1 : Run (Option GoError))
          else walkEntries env (walker g env d) path entries).events).Sublist
            ((entries.paths env path).filter (fun p => Ext p = ".torrent"))
        split
        · exact List.nil_sublist _
        · exact walkEntries_calls_sublist g env d entries path)
    have hp : (Node.dir entries).paths env path = [path] ++ entries.paths env path := by
      simp [Node.paths]
    rw [hp, List.filter_append]
    exact h
theorem walkEntries_calls_sublist (g : Globals) (env : Env) (d : String) :
    (es : Entries) → (path : String) →
    (calls .show_file (walkEntries env (walker g env d) path es).events).Sublist
      ((es.paths env path).filter (fun p => Ext p = ".torrent"))
  | .nil, path => by
    rw [walkEntries]
    exact List.nil_sublist _
  | .cons name node rest, path => by
    rw [walkEntries_cons]
    have h := calls_bind_sublist .show_file
      (walk env (walker g env d) (env.Join [path, name]) node) _
      ((node.paths env (env.Join [path, name])).filter (fun p => Ext p = ".torrent"))
      ((rest.paths env path).filter (fun p => Ext p = ".torrent"))
      (walk_calls_sublist g env d node (env.Join [path, name]))
      (fun err => walkEntries_cont_sublist env (walker g env d) path node rest err _
        (walkEntries_calls_sublist g env d rest path))
    simpa [Entries.paths, List.filter_append] using h
end

theorem show_dir_calls_sublist (g : Globals) (env : Env) (d : String) :
    (calls .show_file (show_dir g env d).events).Sublist
      (((env.Tree d).paths env d).filter (fun p => Ext p = ".torrent")) := by
  rw [show_dir_calls]
  exact walk_calls_sublist g env d (env.Tree d) d

theorem Tool_eq (fl : Flags) (args : List String) (env : Env) :
    Tool fl args env =
      ((if args.length = 0 then show_dir (Tool_globals fl) env "." else pure ())
        >>= fun _ => Tool_args (Tool_globals fl) env args) := by
  unfold Tool
  split <;> rfl

theorem Tool_args_cons (g : Globals) (env : Env) (arg : String) (rest : List String) :
    Tool_args g env (arg :: rest) =
      ((match env.Stat arg with
        | .error err => error_file_or_dir g arg err
        | .ok isDir => if isDir then show_dir g env arg else show_file g env arg)
        >>= fun _ => Tool_args g env rest) := by
  rw [Tool_args]
  cases env.Stat arg with
  | error m => rfl
  | ok isDir => cases isDir <;> rfl

theorem Tool_args_sublist (g : Globals) (env : Env) (args : List String) :
    (calls .show_file (Tool_args g env args).events).Sublist (args.flatMap (arg_paths env)) := by
  induction args with
  | nil => exact List.nil_sublist _
  | cons arg rest ih =>
    rw [Tool_args_cons, List.flatMap_cons]
    apply calls_bind_sublist
    · unfold arg_paths
      cases env.Stat arg with
      | error m => exact List.nil_sublist _
      | ok isDir =>
        cases isDir with
        | true => exact show_dir_calls_sublist g env arg
        | false =>
          simp only [Bool.false_eq_true, if_false]
          rw [calls_show_file_self]
    · exact fun _ => ih

theorem Tool_sublist (fl : Flags) (args : List String) (env : Env) :
    (calls .show_file (Tool fl args env).events).Sublist (Tool_paths env args) := by
  rw [Tool_eq]
  unfold Tool_paths
  apply calls_bind_sublist
  · split
    · exact show_dir_calls_sublist _ env "."
    · exact List.nil_sublist _
  · exact fun _ => Tool_args_sublist _ env args

theorem Tool_args_events (g : Globals) (env : Env) (args : List String) :
    ∀ e ∈ (Tool_args g env args).events,
      (∃ d ∈ args, env.Stat d = .ok true ∧ e = .call .show_dir d) ∨
      (∃ a ∈ args, ∃ m, env.Stat a = .error m ∧ e ∈ (error_file_or_dir g a m).events) ∨
      (∃ p, e ∈ (show_file g env p).events) := by
  induction args with
  | nil =>
    intro e he
    exact absurd he (List.not_mem_nil _)
  | cons arg rest ih =>
    intro e he
    rw [Tool_args_cons] at he
    rcases events_bind_mem _ _ e he with h | ⟨_, -, h⟩
    · cases hs : env.Stat arg with
      | error m =>
        rw [hs] at h
        exact Or.inr (Or.inl ⟨arg, List.mem_cons_self _ _, m, hs, h⟩)
      | ok isDir =>
        rw [hs] at h
        cases isDir with
        | true =>
          rcases show_dir_events g env arg e h with h' | ⟨p, -, -, h'⟩
          · exact Or.inl ⟨arg, List.mem_cons_self _ _, hs, h'⟩
          · exact Or.inr (Or.inr ⟨p, h'⟩)
        | false => exact Or.inr (Or.inr ⟨arg, h⟩)
    · rcases ih e h with ⟨d, hd, h1, h2⟩ | ⟨a, ha, m, h1, h2⟩ | h'
      · exact Or.inl ⟨d, List.mem_cons_of_mem _ hd, h1, h2⟩
      · exact Or.inr (Or.inl ⟨a, List.mem_cons_of_mem _ ha, m, h1, h2⟩)
      · exact Or.inr (Or.inr h')

theorem Tool_events (fl : Flags) (args : List String) (env : Env) :
    ∀ e ∈ (Tool fl args env).events,
      (∃ d, e = .call .show_dir d) ∨
      (∃ a m, e ∈ (error_file_or_dir (Tool_globals fl) a m).events) ∨
      (∃ p, e ∈ (show_file (Tool_globals fl) env p).events) := by
  intro e he
  rw [Tool_eq] at he
  rcases events_bind_mem _ _ e he with h | ⟨_, -, h⟩
  · split at h
    · rcases show_dir_events _ env "." e h with h' | ⟨p, -, -, h'⟩
      · exact Or.inl ⟨_, h'⟩
      · exact Or.inr (Or.inr ⟨p, h'⟩)
    · exact absurd h (List.not_mem_nil _)
  · rcases Tool_args_events _ env args e h with ⟨d, -, -, h2⟩ | ⟨a, -, m, -, h2⟩ | h'
    · exact Or.inl ⟨d, h2⟩
    · exact Or.inr (Or.inl ⟨a, m, h2⟩)
    · exact Or.inr (Or.inr h')

/-! ## Names given to the renderers -/

theorem renderer_name (g : Globals) (env : Env) (p : String) (fn : Fn)
    (hfn : fn = .show_short ∨ fn = .show_basic ∨ fn = .show_long) :
    ∀ name ∈ calls fn (show_file g env p).events,
      fn = g.mode.fn ∧ name = (if g.recursive then p else (Split p).2) ∧
      ∃ mi, env.LoadFromFile p = .ok mi := by
  intro name hn
  unfold show_file at hn
  rw [Run.bind_ok _ _ rfl, calls_append] at hn
  have h0 : calls fn (enter .show_file p).events = [] := by
    rcases hfn with h | h | h <;> subst h <;> rfl
  rw [h0, List.nil_append] at hn
  cases hl : env.LoadFromFile p with
  | error e =>
    rw [hl] at hn
    have : calls fn (error_file_or_dir g p e).events = [] := by
      rcases hfn with h | h | h <;> subst h <;> rfl
    rw [this] at hn
    exact absurd hn (List.not_mem_nil _)
  | ok mi =>
    rw [hl] at hn
    have hname : (if (!g.recursive) = true then (Split p).2 else p)
        = (if g.recursive = true then p else (Split p).2) := by
      cases g.recursive <;> rfl
    cases hm : g.mode with
    | view_basic =>
      rw [hm] at hn
      simp only [calls_show_basic] at hn
      split at hn
      · rename_i h
        refine ⟨h, ?_, mi, rfl⟩
        rw [List.mem_singleton] at hn
        rw [hn, hname]
      · exact absurd hn (List.not_mem_nil _)
    | view_short =>
      rw [hm] at hn
      simp only [calls_show_short] at hn
      split at hn
      · rename_i h
        refine ⟨h, ?_, mi, rfl⟩
        rw [List.mem_singleton] at hn
        rw [hn, hname]
      · exact absurd hn (List.not_mem_nil _)
    | view_long =>
      rw [hm] at hn
      simp only [calls_show_long] at hn
      split at hn
      · rename_i h
        refine ⟨h, ?_, mi, rfl⟩
        rw [List.mem_singleton] at hn
        rw [hn, hname]
      · exact absurd hn (List.not_mem_nil _)

/-! ## Claims on `Tool` and the walk -/

/-- C12 fails when the walk has no file information: the callback reads
`info.IsDir()` before it tests the error, so with a nil `info` it panics for
every error; in the tree with the entry `locked` whose `Lstat` fails the walk
stops there and `b.torrent` is never passed to `show_file`.  With file
information and an error the callback writes nothing, does not call
`show_file` and answers `nil` or `SkipDir`. -/
theorem walker_faults_without_info :
    (∀ (g : Globals) (env : Env) (d path : String) (err : Option String),
      (walker g env d path none err).val = none) ∧
    (∀ (g : Globals) (env : Env) (d path err : String) (b : Bool),
      walker g env d path (some b) (some err) = pure none ∨
      (b = true ∧ walker g env d path (some b) (some err) = pure (some .SkipDir))) ∧
    (show_dir (plain .view_short true) lockedEnv "d").val = none ∧
    calls .show_file (show_dir (plain .view_short true) lockedEnv "d").events = [] ∧
    (locked_tree.paths lockedEnv "d").filter (fun p => Ext p = ".torrent")
      = ["d/b.torrent"] := by
  refine ⟨?_, ?_, by decide, by decide, by decide⟩
  · intro g env d path err
    rw [walker_none]
    rfl
  · intro g env d path err b
    rw [walker_some]
    by_cases h : (b && !g.recursive && decide (path ≠ d)) = true
    · right
      refine ⟨?_, by rw [if_pos h]⟩
      cases b
      · simp at h
      · rfl
    · left
      rw [if_neg h, if_pos (by simp)]

/-- C15 as stated fails: with the argument `a.torrent` given twice, `Tool`
passes it to `show_file` twice and renders it twice. -/
theorem Tool_renders_twice :
    calls .show_file (Tool flags_short ["a.torrent", "a.torrent"] ubuntuEnv).events
      = ["a.torrent", "a.torrent"] ∧
    calls .show_short (Tool flags_short ["a.torrent", "a.torrent"] ubuntuEnv).events
      = ["a.torrent", "a.torrent"] ∧
    ¬ (calls .show_file
        (Tool flags_short ["a.torrent", "a.torrent"] ubuntuEnv).events).Nodup := by
  refine ⟨by decide, by decide, by decide⟩

/-- C15, amended. In one invocation of `Tool` the paths passed to `show_file`
form, in order, a sub-sequence of the candidates: the `.torrent` entries of
the tree of `.` when there is no argument, else for each argument the
`.torrent` entries of its tree if it is a directory and the argument itself
if it is another file; every entry of a walk and every argument is passed at
most once, so no path is passed twice when the candidates hold none twice. -/
theorem Tool_visits_once (fl : Flags) (args : List String) (g : Globals) (env : Env)
    (d : String) :
    (calls .show_file (show_dir g env d).events).Sublist
      (((env.Tree d).paths env d).filter (fun p => Ext p = ".torrent")) ∧
    (calls .show_file (Tool fl args env).events).Sublist (Tool_paths env args) ∧
    ((Tool_paths env args).Nodup → (calls .show_file (Tool fl args env).events).Nodup) := by
  refine ⟨show_dir_calls_sublist g env d, Tool_sublist fl args env, ?_⟩
  intro h
  exact h.sublist (Tool_sublist fl args env)

/-- Witness for C15: the directory `d` and the file `x.txt` as arguments. -/
theorem Tool_visits_once_mixed :
    (Tool_paths mixedEnv ["d", "x.txt"]).Nodup ∧
    (calls .show_file (Tool flags_short ["d", "x.txt"] mixedEnv).events).Nodup :=
  ⟨by decide,
   (Tool_visits_once flags_short ["d", "x.txt"] (plain .view_short false) mixedEnv "d").2.2
    (by decide)⟩

/-- C18. The mode `Tool` assigns is short when `-s` is set, whether or not
`-l` is, else long when `-l` is set, else basic; it does not depend on `-b`
nor on the other flags, and every renderer entered during the invocation is
the renderer of that mode. -/
theorem Tool_mode_of_flags (fl : Flags) (args : List String) (env : Env) :
    (Tool_globals fl).mode =
      (if fl.short then .view_short else if fl.long then .view_long else .view_basic) ∧
    (∀ r n b l, (Tool_globals ⟨r, n, true, b, l⟩).mode = .view_short) ∧
    (∀ r n b, (Tool_globals ⟨r, n, false, b, true⟩).mode = .view_long) ∧
    (∀ r n b, (Tool_globals ⟨r, n, false, b, false⟩).mode = .view_basic) ∧
    (∀ r n b, (Tool_globals { fl with recursive := r, no_colors := n, basic := b }).mode
      = (Tool_globals fl).mode) ∧
    (∀ fn ∈ [Fn.show_short, Fn.show_basic, Fn.show_long],
      ∀ name ∈ calls fn (Tool fl args env).events, fn = (Tool_globals fl).mode.fn) := by
  refine ⟨rfl, fun _ _ _ _ => rfl, fun _ _ _ => rfl, fun _ _ _ => rfl, fun _ _ _ => rfl, ?_⟩
  intro fn hfn name hn
  have hfn' : fn = .show_short ∨ fn = .show_basic ∨ fn = .show_long := by
    simpa using hfn
  rw [mem_calls] at hn
  rcases Tool_events fl args env _ hn with ⟨d, h⟩ | ⟨a, m, h⟩ | ⟨p, h⟩
  · have := (Event.call.inj h).1
    rcases hfn' with h' | h' | h' <;> rw [h'] at this <;> exact absurd this (by decide)
  · rw [← mem_calls] at h
    have : calls fn (error_file_or_dir (Tool_globals fl) a m).events = [] := by
      rcases hfn' with h' | h' | h' <;> subst h' <;> rfl
    rw [this] at h
    exact absurd h (List.not_mem_nil _)
  · rw [← mem_calls] at h
    exact (renderer_name (Tool_globals fl) env p fn hfn' name h).1

/-- Witness for C18: with `-s` and `-l` both set, two files are both rendered
by `show_short` and none by `show_long`. -/
theorem Tool_mode_of_flags_sample :
    calls .show_short (Tool flags_short_long ["a.torrent", "b.torrent"] ubuntuEnv).events
      = ["a.torrent", "b.torrent"] ∧
    Fn.show_short = (Tool_globals flags_short_long).mode.fn :=
  ⟨by decide,
   (Tool_mode_of_flags flags_short_long ["a.torrent", "b.torrent"] ubuntuEnv).2.2.2.2.2
    .show_short (by decide) "a.torrent" (by decide)⟩

/-! ## Listings of `show_long` -/

theorem outs_forRange_out {α : Type} (f : α → List Arg) (xs : List α) (k : Nat) :
    outs (forRange (fun _ x => out (f x)) k xs).events = xs.map f := by
  induction xs generalizing k with
  | nil => rfl
  | cons x xs ih =>
    unfold forRange
    rw [Run.bind_ok _ _ rfl, outs_append, ih]
    rfl

theorem outs_announce (g : Globals) (groups : List (List String)) (k : Nat) :
    outs (forRange (fun i ag => do
      out [.str g.colors.color_yellow_bold, .str "        ", .int i,
           .str g.colors.color_none, .str "\n"]
      forRange (fun _ a => out [.str "            ", .str a, .str "\n"]) 0 ag) k groups).events
      = announce_calls g.colors k groups := by
  induction groups generalizing k with
  | nil => rfl
  | cons ag rest ih =>
    unfold forRange
    have hb : (do
        out [.str g.colors.color_yellow_bold, .str "        ", .int (k : Int),
             .str g.colors.color_none, .str "\n"]
        forRange (fun _ a => out [.str "            ", .str a, .str "\n"]) 0 ag : Run Unit).val
        = some () := by
      rw [Run.bind_ok _ _ rfl]
      exact forRange_out_val _ _ _
    rw [Run.bind_ok _ _ hb, outs_append, ih, Run.bind_ok _ _ rfl, outs_append]
    have := outs_forRange_out (fun a : String => [Arg.str "            ", .str a, .str "\n"]) ag 0
    rw [this]
    rfl

theorem outs_cons_out (args : List Arg) (es : List Event) :
    outs (.out args :: es) = args :: outs es := rfl

theorem outs_cons_call (fn : Fn) (n : String) (es : List Event) :
    outs (.call fn n :: es) = outs es := rfl

theorem outs_nil : outs [] = [] := rfl

/-- C17. The calls of `out` made by `show_long` are, in order: the header, the
head `announce groups`, then for each announce group in order one call with
its 0-based index at depth 2 followed by one call per tracker URL at depth 3,
then `created on` and the optional sections, then for one file entry `name`
and `length`, and otherwise `name`, the head `files (N)` and one call per file
entry in order with the joined path and the humanized length in parentheses;
depth 2 is 8 spaces and depth 3 is 12 spaces, and each of these calls writes
one line. -/
theorem show_long_listings (g : Globals) (env : Env) (filename : String) (mi : MetaInfo) :
    outs (show_long g env filename mi).events =
      [[.str g.colors.color_white_bold, .str filename, .str g.colors.color_none, .str "\n"],
       [.str g.colors.color_green_bold, .str "    ", .str "announce groups",
        .str g.colors.color_none, .str "\n"]]
      ++ announce_calls g.colors 0 mi.AnnounceList
      ++ [[.str g.colors.color_green_bold, .str "    ", .str "created on",
           .str g.colors.color_none, .str "\n",
           .str "        ", .time mi.CreationDate, .str "\n"]]
      ++ (if mi.Comment ≠ "" then
            [[.str g.colors.color_green_bold, .str "    ", .str "comment",
              .str g.colors.color_none, .str "\n",
              .str "        ", .str mi.Comment, .str "\n"]] else [])
      ++ (if mi.CreatedBy ≠ "" then
            [[.str g.colors.color_green_bold, .str "    ", .str "created by",
              .str g.colors.color_none, .str "\n",
              .str "        ", .str mi.CreatedBy, .str "\n"]] else [])
      ++ (if mi.Encoding ≠ "" then
            [[.str g.colors.color_green_bold, .str "    ", .str "encoding",
              .str g.colors.color_none, .str "\n",
              .str "        ", .str mi.Encoding, .str "\n"]] else [])
      ++ (if mi.WebSeedURLs ≠ [] then
            [.str g.colors.color_green_bold, .str "    ", .str "webseed urls",
              .str g.colors.color_none, .str "\n"]
            :: mi.WebSeedURLs.map (fun url => [.str "        ", .str url, .str "\n"])
          else [])
      ++ (if mi.Files.length = 1 then
            [[.str g.colors.color_green_bold, .str "    ", .str "name",
              .str g.colors.color_none, .str " (single file)\n",
              .str "        ", .str g.colors.color_yellow, .str mi.Name,
              .str g.colors.color_none, .str "\n"],
             [.str g.colors.color_green_bold, .str "    ", .str "length",
              .str g.colors.color_none, .str "\n",
              .str "        ", .str g.colors.color_cyan,
              .str (env.IBytes (shown_total mi)),
              .str g.colors.color_none, .str "\n"]]
          else
            [[.str g.colors.color_green_bold, .str "    ", .str "name",
              .str g.colors.color_none, .str " (multiple files)\n",
              .str "        ", .str g.colors.color_yellow, .str mi.Name,
              .str g.colors.color_none, .str "\n"],
             [.str g.colors.color_green_bold, .str "    ", .str "files",
              .str g.colors.color_none, .str " (", .int mi.Files.length, .str ")\n"]]
            ++ file_calls g.colors env mi.Files)
      ++ [[.str "\n"]] ∧
    (file_calls g.colors env mi.Files).length = mi.Files.length ∧
    (tabs 1 = some "    " ∧ tabs 2 = some "        " ∧ tabs 3 = some "            ") ∧
    (∀ i : Nat, Fprint env [.str g.colors.color_yellow_bold, .str "        ", .int i,
        .str g.colors.color_none, .str "\n"]
      = g.colors.color_yellow_bold ++ "        " ++ toString i ++ g.colors.color_none ++ "\n") ∧
    (∀ a : String, Fprint env [.str "            ", .str a, .str "\n"]
      = "            " ++ a ++ "\n") ∧
    Fprint env [.str g.colors.color_green_bold, .str "    ", .str "files",
        .str g.colors.color_none, .str " (", .int mi.Files.length, .str ")\n"]
      = g.colors.color_green_bold ++ "    files" ++ g.colors.color_none
          ++ " (" ++ toString mi.Files.length ++ ")" ++ "\n" ∧
    (∀ f : FileInfo, Fprint env [.str "        ", .str (env.Join f.Path),
        .str " (", .str g.colors.color_cyan, .str (env.IBytes (uint64 f.Length)),
        .str g.colors.color_none, .str ")\n"]
      = "        " ++ env.Join f.Path ++ " (" ++ g.colors.color_cyan
          ++ env.IBytes (uint64 f.Length) ++ g.colors.color_none ++ ")" ++ "\n") := by
  refine ⟨?_, ?_, ⟨by decide, by decide, by decide⟩, ?_, ?_, ?_, ?_⟩
  · rw [show_long_run]
    have hW := outs_forRange_out
      (fun url : String => [Arg.str "        ", .str url, .str "\n"]) mi.WebSeedURLs 0
    have hF : outs (forRange (fun (_ : Nat) (f : FileInfo) =>
        out [.str "        ", .str (env.Join f.Path),
          .str " (", .str g.colors.color_cyan,
          .str (env.IBytes (uint64 f.Length)),
          .str g.colors.color_none, .str ")\n"]) 0 mi.Files).events
        = file_calls g.colors env mi.Files :=
      outs_forRange_out _ mi.Files 0
    simp only [outs_append, outs_announce, apply_ite outs, hW, hF, outs_cons_out,
      outs_cons_call, outs_nil]
    rfl
  · simp [file_calls]
  · intro i
    simp [Fprint, doPrint, Arg.format, Arg.isString, String.append_assoc, toString_natCast]
  · intro a
    simp [Fprint, doPrint, Arg.format, Arg.isString, String.append_assoc]
  · simp [Fprint, doPrint, Arg.format, Arg.isString, String.append_assoc,
      toString_natCast]
    rfl
  · intro f
    simp [Fprint, doPrint, Arg.format, Arg.isString, String.append_assoc]

/-- Witness for C17: the two groups and the two files of `album`, colours
cleared. -/
theorem show_long_listings_album :
    announce_calls (plain .view_long false).colors 0 album.AnnounceList =
      [[.str "", .str "        ", .int 0, .str "", .str "\n"],
       [.str "            ", .str "http://tracker.example/announce", .str "\n"],
       [.str "            ", .str "http://b.example/a", .str "\n"],
       [.str "", .str "        ", .int 1, .str "", .str "\n"]] ∧
    file_calls (plain .view_long false).colors ubuntuEnv album.Files =
      [[.str "        ", .str "cd1/a.flac", .str " (", .str "", .str "2.9 KiB", .str "",
        .str ")\n"],
       [.str "        ", .str "cd1/b.flac", .str " (", .str "", .str "4.9 KiB", .str "",
        .str ")\n"]] ∧
    (file_calls (plain .view_long false).colors ubuntuEnv album.Files).length = 2 :=
  ⟨by decide, by decide,
   (show_long_listings (plain .view_long false) ubuntuEnv "a.torrent" album).2.1⟩

end Torgo
